import Mathlib

/-!
Verification development for the rust-squashfs read-only SquashFS parser.

The Rust sources are shallowly embedded: a seekable byte source is a
`List Nat` of byte values addressed by absolute offset, readers that
consume a stream are functions from the remaining byte list, machine
integers are `Nat` holding the unsigned bit pattern of the Rust value
(an `i64` field stores its two's-complement pattern, `< 2^64`), and the
external decompressor (flate2 / xz2, outside this crate) is an abstract
parameter `List Nat → Option (List Nat)` mapping the compressed bytes to
the decompressed output, `none` for a decoder error.  Fallible Rust code
returns a dedicated outcome type whose constructors separate `Ok`,
`Err(io::Error)` and a Rust `panic!`/`unimplemented!`.
-/

namespace Squashfs

/-- Little-endian value of a byte list (least significant byte first),
as produced by `u16/u32/u64::from_le_bytes`. -/
def leBytes (l : List Nat) : Nat :=
  l.foldr (fun b acc => b + 256 * acc) 0

/-- Read the `len`-byte little-endian field at byte offset `off` of `buf`
(the `get_set_field` / `get_set_field_tuple` accessor pattern of
`utils.rs`). -/
def field (buf : List Nat) (off len : Nat) : Nat :=
  leBytes ((buf.drop off).take len)

/-- `METADATA_SIZE` from `lib.rs`. -/
def METADATA_SIZE : Nat := 8 * 1024

/-- `MAGIC` from `lib.rs`. -/
def MAGIC : Nat := 0x73717368

/-- `INVALID_FRAG` from `lib.rs`. -/
def INVALID_FRAG : Nat := 0xffffffff

/-- Bit pattern of `INVALID_BLK = -1i64` from `lib.rs`. -/
def INVALID_BLK_PAT : Nat := 2 ^ 64 - 1

/-! ## Metadata-block reader (`read.rs::read_block`) -/

/-- Outcome of one `read_block` call.  `out` is the byte sequence the
call appended to the destination writer before it returned, errored, or
panicked; `ret` is the returned `compressed_size + 2`. -/
inductive BlockOut where
  | ok (out : List Nat) (ret : Nat)
  | ioError (out : List Nat)
  | panicked (out : List Nat)
deriving DecidableEq, Repr

/-- A decompressor: the `Compressor::decompress` operation of
`compressors.rs`, whose decoding work is done by the external flate2/xz2
crates.  It maps the compressed input bytes to the bytes written to the
destination, or `none` when the decoder reports an error. -/
def Decomp : Type := List Nat → Option (List Nat)

/-- `read.rs::read_block`.  Seeks `src` to `start`, reads the 2-byte
little-endian frame header (failing like `read_exact` when fewer than 2
bytes remain), splits it into the compressed flag (top bit clear means
compressed) and the stored size (low 15 bits), panics when the stored
size exceeds `METADATA_SIZE`, and then either copies up to `size` raw
bytes to the writer (uncompressed branch) or feeds up to `size` bytes
through the decompressor (compressed branch).  In the compressed branch
only, a provided `expected` that differs from the number of bytes the
decompressor produced is a panic — after the bytes were written.
The destination writer is either a `Vec<u8>` (append-only, unbounded:
`cap = none`) or a `&mut [u8]` slice of `c` remaining bytes
(`cap = some c`), whose `write` fails with `WriteZero` once full — an
I/O error raised while writing, hence before the `expected` check. -/
def read_block (src : List Nat) (decomp : Decomp) (start : Nat)
    (expected : Option Nat) (cap : Option Nat) : BlockOut :=
  if src.length < start + 2 then .ioError []
  else
    let hdr := src.getD start 0 + 256 * src.getD (start + 1) 0
    let size := hdr &&& 32767
    if METADATA_SIZE < size then .panicked []
    else if hdr &&& 32768 = 0 then
      -- compressed branch
      let buf := (src.drop (start + 2)).take size
      match decomp buf with
      | none => .ioError []
      | some out =>
        if out.length ≤ cap.getD out.length then
          match expected with
          | some e => if e ≠ out.length then .panicked out else .ok out (size + 2)
          | none => .ok out (size + 2)
        else .ioError (out.take (cap.getD 0))
    else
      let raw := (src.drop (start + 2)).take size
      if raw.length ≤ cap.getD raw.length then .ok raw (size + 2)
      else .ioError (raw.take (cap.getD 0))

/-! ## Superblock (`superblock.rs`) -/

/-- The 18 superblock fields, each holding the unsigned bit pattern of
the Rust accessor's value (`i64` fields as two's-complement patterns
below `2^64`). -/
structure Superblock where
  magic : Nat
  inodes : Nat
  mkfs_time : Nat
  block_size : Nat
  fragments : Nat
  compressor : Nat
  block_log : Nat
  flags : Nat
  no_ids : Nat
  version_major : Nat
  version_minor : Nat
  root_inode : Nat
  bytes_used : Nat
  id_table_start : Nat
  xattr_id_table_start : Nat
  inode_table_start : Nat
  directory_table_start : Nat
  fragment_table_start : Nat
  export_table_start : Nat
deriving DecidableEq, Repr

/-- Field extraction from the 96 bytes at offset 0, at the byte offsets
of the packed `#[repr(C)]` struct in `superblock.rs`. -/
def decodeSuperblock (src : List Nat) : Superblock where
  magic := field src 0 4
  inodes := field src 4 4
  mkfs_time := field src 8 4
  block_size := field src 12 4
  fragments := field src 16 4
  compressor := field src 20 2
  block_log := field src 22 2
  flags := field src 24 2
  no_ids := field src 26 2
  version_major := field src 28 2
  version_minor := field src 30 2
  root_inode := field src 32 8
  bytes_used := field src 40 8
  id_table_start := field src 48 8
  xattr_id_table_start := field src 56 8
  inode_table_start := field src 64 8
  directory_table_start := field src 72 8
  fragment_table_start := field src 80 8
  export_table_start := field src 88 8

/-- Outcome of `Superblock::new`. -/
inductive SbOut where
  | ok (sb : Superblock)
  | err
  | ioError
  | panicked
deriving DecidableEq, Repr

/-- `superblock.rs::Superblock::new`.  `read_exact` of the 96-byte
header (I/O error when the source is shorter), then three guards in
order: `magic() != MAGIC` is an error; `block_size().ilog2() !=
block_log()` is an error, where Rust's `u32::ilog2` panics on zero and
is the floor base-2 logarithm otherwise; `xattr_id_table_start() != -1`
is an error.  Otherwise the decoded superblock is returned. -/
def superblockNew (src : List Nat) : SbOut :=
  if src.length < 96 then .ioError
  else
    let sb := decodeSuperblock src
    if sb.magic ≠ MAGIC then .err
    else if sb.block_size = 0 then .panicked
    else if Nat.log2 sb.block_size ≠ sb.block_log then .err
    else if sb.xattr_id_table_start ≠ INVALID_BLK_PAT then .err
    else .ok sb

/-! ## Inode headers (`inode.rs`) -/

/-- The parsed inode variants (`inode.rs::InodeHeader`).  Each variant
carries the raw fixed-size buffer (tag bytes included, as rebuilt by
`from_parsed_inode_type`) plus its variable trailer: the directory-index
records for `LDirectory`, the block list (`Option<Vec<u32>>`) for
`File`/`LFile`, the raw link text for `Symlink`, and the link text plus
the trailing xattr id for `LSymlink`. -/
inductive InodeHeader where
  | directory (buf : List Nat)
  | ldirectory (buf : List Nat) (index : List (List Nat))
  | regular (buf : List Nat) (blocks : Option (List Nat))
  | lregular (buf : List Nat) (blocks : Option (List Nat))
  | symlink (buf : List Nat) (target : List Nat)
  | lsymlink (buf : List Nat) (target : List Nat) (xattr : Nat)
  | dev (buf : List Nat)
  | ldev (buf : List Nat)
  | ipc (buf : List Nat)
  | lipc (buf : List Nat)
deriving DecidableEq, Repr

/-- The two `io::Error` kinds an inode parse can surface: a failed
`read_exact` (unexpected EOF) and the `"corrupted filesystem"` error of
the `File` decoder's fragment-index guard. -/
inductive PErr where
  | eof
  | corrupted
deriving DecidableEq, Repr

/-- Outcome of parsing one inode header from the front of a byte
stream: the header and the remaining stream, an `io::Error`, or a Rust
panic (`unimplemented!()` on an unknown tag, or `clone_from_slice` on a
misaligned block-list chunk). -/
inductive PResult where
  | ok (h : InodeHeader) (rest : List Nat)
  | err (e : PErr)
  | panicked
deriving DecidableEq, Repr

/-- `Read::read_exact` on a byte stream: exactly `n` bytes from the
front, or failure when fewer remain. -/
def readExactStream (input : List Nat) (n : Nat) :
    Option (List Nat × List Nat) :=
  if input.length < n then none else some (input.take n, input.drop n)

/-- `inode.rs::fragment_blocks`, in u64 arithmetic (wrapping, so the
`file_size + block_size - 1` sum is reduced modulo `2^64` and an
underflow at `file_size = block_size = 0` wraps): the number of
block-list entries a `File`/`LFile` inode declares. -/
def fragment_blocks (fragment file_size block_size block_log : Nat) : Nat :=
  if fragment = INVALID_FRAG then
    ((file_size + block_size + 2 ^ 64 - 1) % 2 ^ 64) >>> block_log
  else file_size >>> block_log

/-- The `chunks(4)`-and-`from_le_bytes` conversion at the end of
`inode.rs::block_list`: splits the byte list into little-endian `u32`s,
and panics (`clone_from_slice` length mismatch) when the byte count is
not a multiple of 4. -/
def chunksLE32 : List Nat → Option (List Nat)
  | [] => some []
  | a :: b :: c :: d :: t => (chunksLE32 t).map (fun r => leBytes [a, b, c, d] :: r)
  | _ => none

/-- The shared fixed-prefix read of every `from_parsed_inode_type`: the
tag was already consumed, `bodyLen` further bytes are read with
`read_exact`, and the stored buffer is the canonical little-endian tag
bytes followed by the body. -/
def parseFixed (tag bodyLen : Nat) (mk : List Nat → InodeHeader)
    (input : List Nat) : PResult :=
  match readExactStream input bodyLen with
  | none => .err .eof
  | some (body, rest) => .ok (mk (tag :: 0 :: body)) rest

/-- `RegularInodeHeader::from_parsed_inode_type` (tag 2, `File`): reads
the 30 remaining fixed bytes, applies the fragment-index guard
(`fragment != INVALID_FRAG && fragment > superblock.fragments()` is the
`"corrupted filesystem"` error), and reads the block list only when the
declared count is positive.  `block_list` takes *up to* `4 * n` bytes
(`take` + `read_to_end`, which does not fail on a short stream). -/
def parseFile (sb : Superblock) (input : List Nat) : PResult :=
  match readExactStream input 30 with
  | none => .err .eof
  | some (body, rest) =>
    let buf := 2 :: 0 :: body
    let fragment := field buf 20 4
    let file_size := field buf 28 4
    if fragment ≠ INVALID_FRAG ∧ sb.fragments < fragment then .err .corrupted
    else
      let n := fragment_blocks fragment file_size sb.block_size sb.block_log
      if 0 < n then
        match chunksLE32 (rest.take (n * 4)) with
        | none => .panicked
        | some bl => .ok (.regular buf (some bl)) (rest.drop (n * 4))
      else .ok (.regular buf none) rest

/-- `LRegularInodeHeader::from_parsed_inode_type` (tag 9, `LFile`):
reads the 54 remaining fixed bytes and always reads the block list.
There is no fragment-index guard in this decoder. -/
def parseLFile (sb : Superblock) (input : List Nat) : PResult :=
  match readExactStream input 54 with
  | none => .err .eof
  | some (body, rest) =>
    let buf := 9 :: 0 :: body
    let fragment := field buf 44 4
    let file_size := field buf 24 8
    let n := fragment_blocks fragment file_size sb.block_size sb.block_log
    match chunksLE32 (rest.take (n * 4)) with
    | none => .panicked
    | some bl => .ok (.lregular buf (some bl)) (rest.drop (n * 4))

/-- `SymlinkInodeHeader::from_parsed_inode_type` (tags 3 and 10): reads
the 22 remaining fixed bytes, then up to `symlink_size` bytes of link
text (`take` + `read_to_end`, no failure on short input), and for the
extended variant one further `u32` xattr id with `read_exact` (which
does fail at EOF). -/
def parseSymlink (extended : Bool) (input : List Nat) : PResult :=
  match readExactStream input 22 with
  | none => .err .eof
  | some (body, rest) =>
    let buf := (if extended then 10 else 3) :: 0 :: body
    let ssize := field buf 20 4
    let target := rest.take ssize
    let rest2 := rest.drop ssize
    if extended then
      match readExactStream rest2 4 with
      | none => .err .eof
      | some (xb, rest3) => .ok (.lsymlink buf target (leBytes xb)) rest3
    else .ok (.symlink buf target) rest2

/-- The `i_count` loop of `LDirectoryInodeHeader::from_parsed_inode_type`:
each iteration reads a 12-byte directory-index record with `read_exact`
and then skips up to `size + 1` bytes of name (`io::copy` of a `take`,
which does not fail on short input). -/
def parseLDirIndexes (count : Nat) (input : List Nat) :
    Option (List (List Nat) × List Nat) :=
  match count with
  | 0 => some ([], input)
  | n + 1 =>
    match readExactStream input 12 with
    | none => none
    | some (rec, rest) =>
      (parseLDirIndexes n (rest.drop (field rec 8 4 + 1))).map
        (fun p => (rec :: p.1, p.2))

/-- `LDirectoryInodeHeader::from_parsed_inode_type` (tag 8): the 38
remaining fixed bytes, then `i_count` directory-index records. -/
def parseLDirectory (input : List Nat) : PResult :=
  match readExactStream input 38 with
  | none => .err .eof
  | some (body, rest) =>
    let buf := 8 :: 0 :: body
    match parseLDirIndexes (field buf 32 2) rest with
    | none => .err .eof
    | some (idx, rest2) => .ok (.ldirectory buf idx) rest2

/-- `inode.rs::read_inode_header`: reads the `u16` type tag and
dispatches on it exactly as the `match` in the source; a tag outside
`1..=14` maps to `InodeType::Unknown`, whose arm is `unimplemented!()`
— a panic, not an error return. -/
def parseInode (sb : Superblock) (input : List Nat) : PResult :=
  match readExactStream input 2 with
  | none => .err .eof
  | some (tb, rest) =>
    let tag := leBytes tb
    if tag = 1 then parseFixed 1 30 .directory rest
    else if tag = 2 then parseFile sb rest
    else if tag = 3 then parseSymlink false rest
    else if tag = 10 then parseSymlink true rest
    else if tag = 4 ∨ tag = 5 then parseFixed tag 22 .dev rest
    else if tag = 6 ∨ tag = 7 then parseFixed tag 18 .ipc rest
    else if tag = 8 then parseLDirectory rest
    else if tag = 9 then parseLFile sb rest
    else if tag = 11 ∨ tag = 12 then parseFixed tag 26 .ldev rest
    else if tag = 13 ∨ tag = 14 then parseFixed tag 22 .lipc rest
    else .panicked

/-! ## Inode-table scanner (`inode.rs::scan_inode_table`) -/

/-- Outcome of the block-collection `while` loop of `scan_inode_table`:
the concatenated decompressed stream and, when the loop visited the
root block's file offset, the stream position at which that block's
bytes begin. -/
inductive CollectOut where
  | ok (table : List Nat) (rootBlock : Option Nat)
  | ioError
  | panicked
deriving DecidableEq, Repr

/-- The `while start < end` loop of `scan_inode_table`.  Each iteration
records the current stream length when `start` equals the root block's
file offset, reads one metadata block, advances `start` by the bytes the
frame consumed, panics (`"corrupted: bad metadata size"`) when a block
other than the one reaching `end` decompresses to other than 8192
bytes, and appends the block to the stream.  File offsets are modelled
as `Nat`: valid archives carry nonnegative `i64` table offsets. -/
def scanCollect (src : List Nat) (decomp : Decomp) (endPos rootStart : Nat)
    (start : Nat) : CollectOut :=
  if hlt : start < endPos then
    match hrb : read_block src decomp start none none with
    | .ok buf ret =>
      if start + ret ≠ endPos ∧ buf.length ≠ METADATA_SIZE then .panicked
      else
        match scanCollect src decomp endPos rootStart (start + ret) with
        | .ok rest rb =>
          .ok (buf ++ rest)
            (if start = rootStart then some 0 else rb.map (buf.length + ·))
        | .ioError => .ioError
        | .panicked => .panicked
    | .ioError _ => .ioError
    | .panicked _ => .panicked
  else .ok [] none
termination_by endPos - start
decreasing_by
  have hpos : 0 < ret := by
    unfold read_block at hrb
    simp only [Option.getD_none] at hrb
    iterate 6 (all_goals try split at hrb)
    all_goals first
      | (injection hrb with h1 h2; omega)
      | injection hrb
  omega

/-- Outcome of the back-to-back parse of the whole decompressed inode
stream (the final loop of `scan_inode_table`). -/
inductive ListOut where
  | ok (l : List InodeHeader)
  | err (e : PErr)
  | panicked
deriving DecidableEq, Repr

set_option maxHeartbeats 2000000 in
/-- The final loop of `scan_inode_table`: starting from position 0,
parse inode headers back-to-back until the stream is exhausted. -/
def parseAllLoop (sb : Superblock) (input : List Nat) : ListOut :=
  if input.isEmpty then .ok []
  else
    match hp : parseInode sb input with
    | .ok i rest =>
      match parseAllLoop sb rest with
      | .ok l => .ok (i :: l)
      | .err e => .err e
      | .panicked => .panicked
    | .err e => .err e
    | .panicked => .panicked
termination_by input.length
decreasing_by
  have hskip : ∀ c inp res, parseLDirIndexes c inp = some res →
      res.2.length ≤ inp.length := by
    intro c
    induction c with
    | zero =>
      intro inp res h
      simp only [parseLDirIndexes] at h
      cases h
      exact le_rfl
    | succ n ih =>
      intro inp res h
      simp only [parseLDirIndexes, readExactStream] at h
      by_cases hc : inp.length < 12
      · rw [if_pos hc] at h
        exact absurd h (by simp)
      · rw [if_neg hc] at h
        rw [Option.map_eq_some'] at h
        obtain ⟨p, hp2, hres⟩ := h
        have hih := ih _ _ hp2
        have h2 : res.2 = p.2 := by rw [← hres]
        rw [h2]
        refine hih.trans ?_
        simp only [List.length_drop]
        omega
  have hFixed : ∀ tg n mk inp i rest, parseFixed tg n mk inp = .ok i rest →
      rest.length ≤ inp.length := by
    intro tg n mk inp i rest h
    simp only [parseFixed, readExactStream] at h
    by_cases hc : inp.length < n
    · rw [if_pos hc] at h
      exact absurd h (by simp)
    · rw [if_neg hc] at h
      injection h with h1 h2
      rw [← h2]
      simp only [List.length_drop]
      omega
  have hFile : ∀ s inp i rest, parseFile s inp = .ok i rest →
      rest.length ≤ inp.length := by
    intro s inp i rest h
    simp only [parseFile, readExactStream] at h
    by_cases hc : inp.length < 30
    · rw [if_pos hc] at h
      exact absurd h (by simp)
    · rw [if_neg hc] at h
      dsimp only at h
      split at h
      · exact absurd h (by simp)
      · split at h
        · split at h
          · exact absurd h (by simp)
          · injection h with h1 h2
            rw [← h2]
            simp only [List.length_drop]
            omega
        · injection h with h1 h2
          rw [← h2]
          simp only [List.length_drop]
          omega
  have hLFile : ∀ s inp i rest, parseLFile s inp = .ok i rest →
      rest.length ≤ inp.length := by
    intro s inp i rest h
    simp only [parseLFile, readExactStream] at h
    by_cases hc : inp.length < 54
    · rw [if_pos hc] at h
      exact absurd h (by simp)
    · rw [if_neg hc] at h
      dsimp only at h
      split at h
      · exact absurd h (by simp)
      · injection h with h1 h2
        rw [← h2]
        simp only [List.length_drop]
        omega
  have hSym : ∀ ext inp i rest, parseSymlink ext inp = .ok i rest →
      rest.length ≤ inp.length := by
    intro ext inp i rest h
    simp only [parseSymlink, readExactStream] at h
    by_cases hc : inp.length < 22
    · rw [if_pos hc] at h
      exact absurd h (by simp)
    · rw [if_neg hc] at h
      dsimp only at h
      split at h
      · -- extended: one more read_exact of the xattr u32
        split at h
        · exact absurd h (by simp)
        · rename_i xb rest3 heq
          injection h with h1 h2
          rw [← h2]
          split at heq
          · exact absurd heq (by simp)
          · injection heq with heq2
            injection heq2 with ha hb
            rw [← hb]
            simp only [List.length_drop]
            omega
      · injection h with h1 h2
        rw [← h2]
        simp only [List.length_drop]
        omega
  have hLDir : ∀ inp i rest, parseLDirectory inp = .ok i rest →
      rest.length ≤ inp.length := by
    intro inp i rest h
    simp only [parseLDirectory, readExactStream] at h
    by_cases hc : inp.length < 38
    · rw [if_pos hc] at h
      exact absurd h (by simp)
    · rw [if_neg hc] at h
      dsimp only at h
      split at h
      · exact absurd h (by simp)
      · rename_i idx rest2 heq
        injection h with h1 h2
        rw [← h2]
        have hs := hskip _ _ _ heq
        refine (by exact hs : rest2.length ≤ _).trans ?_
        simp only [List.length_drop]
        omega
  simp only [parseInode, readExactStream] at hp
  by_cases hc : input.length < 2
  · rw [if_pos hc] at hp
    exact absurd hp (by simp)
  · rw [if_neg hc] at hp
    dsimp only at hp
    split at hp
    · have hb := hFixed _ _ _ _ _ _ hp
      simp only [List.length_drop] at hb
      omega
    · split at hp
      · have hb := hFile _ _ _ _ hp
        simp only [List.length_drop] at hb
        omega
      · split at hp
        · have hb := hSym _ _ _ _ hp
          simp only [List.length_drop] at hb
          omega
        · split at hp
          · have hb := hSym _ _ _ _ hp
            simp only [List.length_drop] at hb
            omega
          · split at hp
            · have hb := hFixed _ _ _ _ _ _ hp
              simp only [List.length_drop] at hb
              omega
            · split at hp
              · have hb := hFixed _ _ _ _ _ _ hp
                simp only [List.length_drop] at hb
                omega
              · split at hp
                · have hb := hLDir _ _ _ hp
                  simp only [List.length_drop] at hb
                  omega
                · split at hp
                  · have hb := hLFile _ _ _ _ hp
                    simp only [List.length_drop] at hb
                    omega
                  · split at hp
                    · have hb := hFixed _ _ _ _ _ _ hp
                      simp only [List.length_drop] at hb
                      omega
                    · split at hp
                      · have hb := hFixed _ _ _ _ _ _ hp
                        simp only [List.length_drop] at hb
                        omega
                      · exact absurd hp (by simp)

/-- Outcome of `scan_inode_table`: the separately returned root inode
and the list of all inodes, or the first failure. -/
inductive ScanOut where
  | ok (root : InodeHeader) (list : List InodeHeader)
  | err (e : PErr)
  | ioError
  | panicked
deriving DecidableEq, Repr

/-- `inode.rs::scan_inode_table`.  The block loop runs from
`inode_table_start` to `directory_table_start`; the root block's file
offset is `start + ((root_inode >> 16) as u32)` (a truncating `u32`
cast, hence the `% 2^32`) and the root's intra-block offset is
`root_inode as u32 & 0xffff`.  After the loop: no recorded root block
is a panic; a stream shorter than `root_block + root_offset + 32` is a
panic; then the root inode is parsed from the stream suffix at
`root_block + root_offset`, and every inode is parsed back-to-back from
position 0. -/
def scan_inode_table (src : List Nat) (decomp : Decomp) (sb : Superblock) :
    ScanOut :=
  let start := sb.inode_table_start
  let endPos := sb.directory_table_start
  let rootStart := start + (sb.root_inode >>> 16) % 2 ^ 32
  let rootOffset := sb.root_inode % 2 ^ 16
  match scanCollect src decomp endPos rootStart start with
  | .ioError => .ioError
  | .panicked => .panicked
  | .ok table rb =>
    match rb with
    | none => .panicked
    | some rootBlock =>
      if table.length - rootBlock < rootOffset + 32 then .panicked
      else
        match parseInode sb (table.drop (rootBlock + rootOffset)) with
        | .err e => .err e
        | .panicked => .panicked
        | .ok root _ =>
          match parseAllLoop sb table with
          | .ok l => .ok root l
          | .err e => .err e
          | .panicked => .panicked

/-- The stream remaining after `n` successful back-to-back inode parses
(`none` when some parse among the first `n` does not succeed); position
`n` of the sequential parse of `scan_inode_table`. -/
def afterN (sb : Superblock) : Nat → List Nat → Option (List Nat)
  | 0, input => some input
  | n + 1, input =>
    match parseInode sb input with
    | .ok _ rest => afterN sb n rest
    | _ => none

/-! ## Fragment table (`read.rs::FragmentTableReader`, `image.rs`) -/

/-- `FRAGMENT_ENTRY_SIZE` from `fragments.rs`. -/
def FRAGMENT_ENTRY_SIZE : Nat := 16

/-- The `chunks(8)`-and-`u64::from_le_bytes` conversion used on outer
index buffers (`FragmentTableReader::new`, `Image::id_table`,
`Image::export_table`): little-endian 64-bit values, panicking
(`try_into` + `panic!`) when the byte count is not a multiple of 8. -/
def chunksLE64 : List Nat → Option (List Nat)
  | [] => some []
  | a :: b :: c :: d :: e :: f :: g :: h :: t =>
    (chunksLE64 t).map (fun r => leBytes [a, b, c, d, e, f, g, h] :: r)
  | _ => none

/-- The mutable state of `FragmentTableReader`: the next outer-index
position, the decoded outer index, the fragment count, and the current
decompressed buffer with its read position. -/
structure FTRState where
  position : Nat
  index : List Nat
  fragments : Nat
  buffer_position : Nat
  buffer : List Nat
deriving DecidableEq, Repr

/-- `FragmentTableReader::new`: seeks to `fragment_table_start`, copies
up to `ceil(fragments*16 / 8192) * 8` bytes of outer index (a `copy`
from a `take`, which does not fail on short input) and splits them into
`u64` pointers (`none` models the `try_into` panic on a trailing short
chunk). -/
def fragmentTableReaderNew (src : List Nat) (sb : Superblock) :
    Option FTRState :=
  let fragments := sb.fragments
  let indexes := (fragments * FRAGMENT_ENTRY_SIZE + METADATA_SIZE - 1) / METADATA_SIZE
  let indexBytes := indexes * 8
  (chunksLE64 ((src.drop sb.fragment_table_start).take indexBytes)).map
    (fun index =>
      { position := 0, index := index, fragments := fragments,
        buffer_position := 0, buffer := [] })

/-- Outcome of one `FragmentTableReader::read` call: the bytes written
into the caller's buffer and the successor state. -/
inductive FtrReadOut where
  | ok (bytes : List Nat) (s : FTRState)
  | ioError
  | panicked
deriving DecidableEq, Repr

/-- The refill half of `FragmentTableReader::read` (everything after
the initial buffer-drain branch): end-of-index returns what was
written; otherwise one metadata block is read with the expected-length
rule `(position+1 != index.len) ? 8192 : fragments*16 & 8191`, appended
to the buffer, and up to the writer's remaining space is served from
the front of the buffer. -/
def ftrRefill (src : List Nat) (decomp : Decomp) (s : FTRState) (w : Nat)
    (written : List Nat) : FtrReadOut :=
  if s.position = s.index.length then .ok written s
  else
    let expected := if s.position + 1 ≠ s.index.length then METADATA_SIZE
      else (s.fragments * FRAGMENT_ENTRY_SIZE) &&& (METADATA_SIZE - 1)
    match read_block src decomp (s.index.getD s.position 0) (some expected) none with
    | .ioError _ => .ioError
    | .panicked _ => .panicked
    | .ok out _ =>
      let buffer := s.buffer ++ out
      let left := min buffer.length (w - written.length)
      .ok (written ++ buffer.take left)
        { s with position := s.position + 1, buffer := buffer,
                 buffer_position := s.buffer_position + left }

/-- `FragmentTableReader::read` with a writer of `w` free bytes.  When
the buffer holds unread bytes: a writer smaller than the remainder is
served from the buffer at the current position; otherwise the remainder
is drained, the buffer truncated and the position reset, and the refill
half runs.  An empty or fully-read buffer goes straight to the refill
half. -/
def ftrRead (src : List Nat) (decomp : Decomp) (s : FTRState) (w : Nat) :
    FtrReadOut :=
  if s.buffer_position < s.buffer.length then
    let rem := s.buffer.length - s.buffer_position
    if w < rem then
      .ok ((s.buffer.drop s.buffer_position).take w)
        { s with buffer_position := s.buffer_position + w }
    else
      ftrRefill src decomp { s with buffer := [], buffer_position := 0 } w
        (s.buffer.drop s.buffer_position)
  else ftrRefill src decomp s w []

/-- `Read::read_exact` over a `FragmentTableReader`: repeated `read`
calls on the unfilled tail of the destination; a `read` returning 0
bytes is an `UnexpectedEof` error. -/
def ftrReadExact (src : List Nat) (decomp : Decomp) (s : FTRState)
    (need : Nat) : FtrReadOut :=
  if h0 : need = 0 then .ok [] s
  else
    match ftrRead src decomp s need with
    | .ioError => .ioError
    | .panicked => .panicked
    | .ok bytes s' =>
      if hb : bytes.length = 0 then .ioError
      else
        match ftrReadExact src decomp s' (need - bytes.length) with
        | .ok more s2 => .ok (bytes ++ more) s2
        | .ioError => .ioError
        | .panicked => .panicked
termination_by need
decreasing_by omega

/-- Outcome of `Image::fragments`: the 16-byte fragment entries in
order. -/
inductive FragsOut where
  | ok (entries : List (List Nat))
  | ioError
  | panicked
deriving DecidableEq, Repr

/-- The `for _ in 0..fragments` loop of `Image::fragments`: each
iteration drains one 16-byte entry from the streaming reader with
`read_exact`. -/
def fragsLoop (src : List Nat) (decomp : Decomp) (s : FTRState) :
    Nat → FragsOut
  | 0 => .ok []
  | n + 1 =>
    match ftrReadExact src decomp s FRAGMENT_ENTRY_SIZE with
    | .ioError => .ioError
    | .panicked => .panicked
    | .ok bytes s' =>
      match fragsLoop src decomp s' n with
      | .ok l => .ok (bytes :: l)
      | .ioError => .ioError
      | .panicked => .panicked

/-- `Image::fragments`: build the streaming fragment reader, then pull
`fragments` entries of 16 bytes each. -/
def imageFragments (src : List Nat) (decomp : Decomp) (sb : Superblock) :
    FragsOut :=
  match fragmentTableReaderNew src sb with
  | none => .panicked
  | some s0 => fragsLoop src decomp s0 sb.fragments

/-- Slicing a payload into `count` records of `size` bytes each (step 6
of the spec's two-level-indexed table procedure). -/
def sliceInto (count size : Nat) (payload : List Nat) : List (List Nat) :=
  (List.range count).map (fun i => (payload.drop (i * size)).take size)

/-- Modelled from the spec, section 4.6 (two-level-indexed table
reader), step 5: the per-pointer block reads of the non-streaming
two-level read, used as the reference side of the fragment-reader
equivalence claim.  Each outer pointer's metadata block is read with
the expected-length rule
`expected = (i+1 != inner_block_count) ? 8192 : total_bytes & 8191`,
and the decompressed payloads are concatenated in order. -/
def specTwoLevelBlocks (src : List Nat) (decomp : Decomp) (total n : Nat) :
    List Nat → Nat → Option (List Nat)
  | [], _ => some []
  | p :: ps, i =>
    let expected := if i + 1 ≠ n then METADATA_SIZE
      else total &&& (METADATA_SIZE - 1)
    match read_block src decomp p (some expected) none with
    | .ok out _ => (specTwoLevelBlocks src decomp total n ps (i + 1)).map (out ++ ·)
    | _ => none

/-- Modelled from the spec, section 4.6 (two-level-indexed table
reader): read `inner_block_count = ceil(count*size / 8192)` outer
pointers at `table_start`, read each pointed-to metadata block with the
expected-length rule, concatenate, and slice the payload — whose length
the spec's two-level length law fixes at `count*size` — into `count`
records of `size` bytes. -/
def specTwoLevelRead (src : List Nat) (decomp : Decomp)
    (entry_count entry_size table_start : Nat) : Option (List (List Nat)) :=
  let total := entry_count * entry_size
  let n := (total + METADATA_SIZE - 1) / METADATA_SIZE
  match chunksLE64 ((src.drop table_start).take (n * 8)) with
  | none => none
  | some ptrs =>
    if ptrs.length = n then
      match specTwoLevelBlocks src decomp total n ptrs 0 with
      | none => none
      | some payload =>
        if payload.length = total then
          some (sliceInto entry_count entry_size payload)
        else none
    else none

/-- Total byte count of a list of blocks. -/
def sumLen (l : List (List Nat)) : Nat := (l.map List.length).sum

/-- Proof infrastructure for the fragment-reader equivalence: the
reachable-state invariant of `FTRState` after `k` whole 16-byte entries
have been drained, relative to the decoded outer index `ptrs` and the
per-block decompressed payloads `outs` (of which there are `n`).
Either the buffer is empty at a block boundary (and a position short of
the index end is only reachable before the first read), or the buffer
holds block `position - 1` with a 16-byte-aligned read position
strictly inside it. -/
def FtrInv (ptrs : List Nat) (outs : List (List Nat)) (f n k : Nat)
    (s : FTRState) : Prop :=
  s.index = ptrs ∧ s.fragments = f ∧
  ((s.buffer = [] ∧ s.buffer_position = 0 ∧ s.position ≤ n ∧
      16 * k = sumLen (outs.take s.position) ∧ (s.position < n → s.position = 0)) ∨
   (0 < s.position ∧ s.position ≤ n ∧
      s.buffer = outs.getD (s.position - 1) [] ∧
      s.buffer_position < s.buffer.length ∧ 16 ∣ s.buffer_position ∧
      16 * k = sumLen (outs.take (s.position - 1)) + s.buffer_position))

/-! ## Id and export tables (`image.rs`) -/

/-- Outcome of a whole-table read (`Image::id_table`,
`Image::export_table`): the decoded entry values or the first
failure. -/
inductive TblOut where
  | ok (entries : List Nat)
  | ioError
  | panicked
deriving DecidableEq, Repr

/-- Outcome of the per-block accumulation loop of a table read. -/
inductive BytesOut where
  | ok (bytes : List Nat)
  | ioError
  | panicked
deriving DecidableEq, Repr

/-- The per-block loop of `Image::id_table`
(`index.iter().enumerate().take(no_ids_blocks)`).  Each iteration
builds `block = vec![0u8; expected]` and passes `&mut block` — a
`Vec<u8>`, whose `Write` impl appends — to `read_block`, so the
accumulated bytes of each block are `expected` zero bytes followed by
the block's decompressed payload. -/
def idTableBlocks (src : List Nat) (decomp : Decomp) (total blocks : Nat) :
    List Nat → Nat → BytesOut
  | [], _ => .ok []
  | p :: ps, i =>
    if blocks ≤ i then .ok []
    else
      let expected := if i + 1 ≠ blocks then METADATA_SIZE
        else total &&& (METADATA_SIZE - 1)
      match read_block src decomp p (some expected) none with
      | .ioError _ => .ioError
      | .panicked _ => .panicked
      | .ok out _ =>
        match idTableBlocks src decomp total blocks ps (i + 1) with
        | .ok rest => .ok ((List.replicate expected 0 ++ out) ++ rest)
        | .ioError => .ioError
        | .panicked => .panicked

/-- `Image::id_table`: read `ceil(no_ids*4 / 8192) * 8` bytes of outer
index at `id_table_start`, split into pointers (`try_into` panic on a
short trailing chunk), run the per-block loop, and split the
accumulated bytes into little-endian `u32`s (`clone_from_slice` panic
on a short trailing chunk). -/
def idTable (src : List Nat) (decomp : Decomp) (sb : Superblock) : TblOut :=
  let total := sb.no_ids * 4
  let blocks := (total + METADATA_SIZE - 1) / METADATA_SIZE
  match chunksLE64 ((src.drop sb.id_table_start).take (blocks * 8)) with
  | none => .panicked
  | some ptrs =>
    match idTableBlocks src decomp total blocks ptrs 0 with
    | .ioError => .ioError
    | .panicked => .panicked
    | .ok payload =>
      match chunksLE32 payload with
      | none => .panicked
      | some ids => .ok ids

/-- The per-block loop of `Image::export_table`.  Each iteration builds
`block = vec![0u8; expected]` and passes `&mut (&mut block[..])` — a
slice writer of capacity `expected` that overwrites from the front — so
the accumulated bytes of each block are the decompressed payload padded
with the untouched zero suffix, and a payload larger than `expected` is
a `WriteZero` I/O error inside `read_block`. -/
def exportTableBlocks (src : List Nat) (decomp : Decomp) (total blocks : Nat) :
    List Nat → Nat → BytesOut
  | [], _ => .ok []
  | p :: ps, i =>
    if blocks ≤ i then .ok []
    else
      let expected := if i + 1 ≠ blocks then METADATA_SIZE
        else total &&& (METADATA_SIZE - 1)
      match read_block src decomp p (some expected) (some expected) with
      | .ioError _ => .ioError
      | .panicked _ => .panicked
      | .ok out _ =>
        match exportTableBlocks src decomp total blocks ps (i + 1) with
        | .ok rest => .ok ((out ++ List.replicate (expected - out.length) 0) ++ rest)
        | .ioError => .ioError
        | .panicked => .panicked

/-- `Image::export_table`: the sentinel `export_table_start == -1`
yields the empty table; otherwise read `ceil(inodes*8 / 8192) * 8`
bytes of outer index, split into pointers (`try_into` panic), panic
when fewer pointers than `lookup_blocks` were read, run the per-block
loop, and split the accumulated bytes into little-endian `u64`s — where
a short trailing chunk is an `io::Error` (`"bad lookup id"`), not a
panic. -/
def exportTable (src : List Nat) (decomp : Decomp) (sb : Superblock) : TblOut :=
  if sb.export_table_start = INVALID_BLK_PAT then .ok []
  else
    let total := sb.inodes * 8
    let blocks := (total + METADATA_SIZE - 1) / METADATA_SIZE
    match chunksLE64 ((src.drop sb.export_table_start).take (blocks * 8)) with
    | none => .panicked
    | some ptrs =>
      if ptrs.length ≠ blocks then .panicked
      else
        match exportTableBlocks src decomp total blocks ptrs 0 with
        | .ioError => .ioError
        | .panicked => .panicked
        | .ok payload =>
          match chunksLE64 payload with
          | none => .ioError
          | some entries => .ok entries

/-! ## Concrete instances used by the theorems below -/

/-- A decompressor that always fails; the concrete inputs below use
only uncompressed framing, which never invokes it. -/
def noDecomp : Decomp := fun _ => none

/-- The all-zero superblock value (every field pattern 0). -/
def sb0 : Superblock := decodeSuperblock (List.replicate 96 0)

/-- `sb0` with a 4096-byte block size and the matching block log. -/
def sbV : Superblock := { sb0 with block_size := 4096, block_log := 12 }

/-- A 96-byte superblock image whose magic is valid, whose
`xattr_id_table_start` is `-1`, and whose `block_size` field holds 4097
with `block_log` 12: `4097.ilog2() = 12`, yet `4097 ≠ 1 << 12`. -/
def cexC1 : List Nat :=
  [0x68, 0x73, 0x71, 0x73] ++ List.replicate 8 0 ++ [0x01, 0x10, 0, 0]
    ++ List.replicate 6 0 ++ [12, 0] ++ List.replicate 32 0
    ++ List.replicate 8 255 ++ List.replicate 32 0

/-- The 54-byte fixed body (tag excluded) of an `LFile` inode whose
`fragment` field (buffer offset 44, body offset 42) holds 1. -/
def lfileBody1 : List Nat :=
  List.replicate 42 0 ++ [1, 0, 0, 0] ++ List.replicate 8 0

/-- The 54-byte fixed body (tag excluded) of an `LFile` inode with
`file_size = 1` (buffer offset 24, body offset 22) and
`fragment = 0xFFFFFFFF` (buffer offset 44, body offset 42): against
`sbV` it declares one block-list entry. -/
def lfileBodyBlk1 : List Nat :=
  List.replicate 22 0 ++ [1, 0, 0, 0, 0, 0, 0, 0] ++ List.replicate 12 0
    ++ [255, 255, 255, 255] ++ List.replicate 8 0

/-- The 30-byte fixed body (tag excluded) of a `File` inode with
`fragment = 0xFFFFFFFF` (body offset 18) and `file_size = 1`
(body offset 26): against `sbV` it declares one block-list entry. -/
def fileBody1 : List Nat :=
  List.replicate 18 0 ++ [255, 255, 255, 255] ++ List.replicate 4 0
    ++ [1, 0, 0, 0]

/-- The 30-byte fixed body of a `File` inode with `fragment = 1`
(body offset 18) and `file_size = 0`. -/
def fileBodyFrag1 : List Nat :=
  List.replicate 18 0 ++ [1, 0, 0, 0] ++ List.replicate 8 0

/-- The fixed body length read by each inode tag's decoder (its header
size per `inode.rs`, minus the 2 tag bytes). -/
def zeroBody : Nat → Nat
  | 1 => 30 | 2 => 30 | 3 => 22 | 4 => 22 | 5 => 22 | 6 => 18 | 7 => 18
  | 8 => 38 | 9 => 54 | 10 => 26 | 11 => 26 | 12 => 26 | 13 => 22 | 14 => 22
  | _ => 0

/-- A minimal one-inode archive for the scanner: the inode table spans
file offsets 0..34 and holds one uncompressed metadata block (header
`0x8020`) whose 32 bytes are a directory inode; the directory table
starts at 34 and the root reference is 0. -/
def srcScan : List Nat := [0x20, 0x80, 1, 0] ++ List.replicate 30 0

/-- The superblock for `srcScan`: inode table at 0, directory table at
34, root reference 0. -/
def sbScan : Superblock := { sb0 with directory_table_start := 34 }

/-- The root inode of `srcScan`: a directory with an all-zero body. -/
def rootScan : InodeHeader := .directory (1 :: 0 :: List.replicate 30 0)

/-- A one-fragment archive for the fragment-table readers: the outer
index at offset 0 holds the single pointer 8, and the metadata block at
offset 8 (uncompressed, header `0x8010`) carries one 16-byte entry. -/
def srcFrag : List Nat :=
  [8, 0, 0, 0, 0, 0, 0, 0] ++ [16, 0x80] ++
    [1, 2, 3, 4, 5, 6, 7, 8, 9, 10, 11, 12, 13, 14, 15, 16]

/-- The superblock for `srcFrag`: one fragment, table start 0. -/
def sbFrag : Superblock := { sb0 with fragments := 1 }

/-- A one-entry id-table archive: outer index at offset 0 holds the
pointer 8; the metadata block at offset 8 (uncompressed, header
`0x8004`) carries the 4 payload bytes `[1,2,3,4]`. -/
def srcId : List Nat := [8, 0, 0, 0, 0, 0, 0, 0] ++ [4, 0x80] ++ [1, 2, 3, 4]

/-- The superblock for `srcId`: one id entry, table start 0. -/
def sbId : Superblock := { sb0 with no_ids := 1 }

/-- A decompressor that maps every input to the empty output. -/
def emptyDecomp : Decomp := fun _ => some []

/-- A decompressor that maps every input to 8193 zero bytes — one more
than a metadata block may logically hold.  The real zlib/xz decoders
can produce such an expansion from a small compressed input. -/
def bigDecomp : Decomp := fun _ => some (List.replicate 8193 0)

/-- The 22-byte fixed body (tag excluded) of a `Symlink` inode whose
`symlink_size` field (buffer offset 20, body offset 18) holds 5. -/
def symBody5 : List Nat := List.replicate 18 0 ++ [5, 0, 0, 0]

/-- A fully valid 96-byte superblock image: correct magic, block size
4096 with block log 12, `xattr_id_table_start = -1`. -/
def goodSb96 : List Nat :=
  [0x68, 0x73, 0x71, 0x73] ++ List.replicate 8 0 ++ [0, 0x10, 0, 0]
    ++ List.replicate 6 0 ++ [12, 0] ++ List.replicate 32 0
    ++ List.replicate 8 255 ++ List.replicate 32 0

/-! # Theorems -/

/-! ## C1: superblock validation -/

/-- C1 counterexample: a 96-byte input with valid magic,
`xattr_id_table_start = -1`, `block_size = 4097` and `block_log = 12`
satisfies the claim's rejection condition `block_size ≠ 1 << block_log`,
yet `Superblock::new` accepts it: the code compares `ilog2(block_size)`
with `block_log`, and `ilog2 4097 = 12`. -/
theorem c1_counterexample :
    superblockNew cexC1 = .ok (decodeSuperblock cexC1) ∧
      (decodeSuperblock cexC1).block_size ≠
        1 <<< (decodeSuperblock cexC1).block_log := by
  have hlog : Nat.log2 4097 = 12 := by
    rw [Nat.log2_eq_log_two]
    exact Nat.log_eq_of_pow_le_of_lt_pow (by norm_num) (by norm_num)
  have h1 : (decodeSuperblock cexC1).magic = MAGIC := by decide
  have h2 : (decodeSuperblock cexC1).block_size = 4097 := by decide
  have h3 : (decodeSuperblock cexC1).block_log = 12 := by decide
  have h4 : (decodeSuperblock cexC1).xattr_id_table_start = INVALID_BLK_PAT := by
    decide
  constructor
  · simp only [superblockNew]
    rw [if_neg (by decide)]
    rw [if_neg (by simp [h1]), if_neg (by simp [h2]),
      if_neg (by simp [h2, h3, hlog]), if_neg (by simp [h4])]
  · decide

/-- C1 (amended): on a 96-byte input, `Superblock::new` returns an
error iff the magic differs from `0x73717368`, or the (positive) block
size lies outside `[2^block_log, 2^(block_log+1))` — the code checks
`ilog2(block_size) == block_log`, not `block_size == 1 << block_log` —
or `xattr_id_table_start ≠ -1`; an input with valid magic and
`block_size = 0` panics (`u32::ilog2(0)`); on any other 96-byte input
the decoded superblock is returned. -/
theorem c1_superblockNew_characterization (src : List Nat)
    (h96 : src.length = 96) (sb : Superblock) (hsb : sb = decodeSuperblock src) :
    (superblockNew src = .err ↔
      sb.magic ≠ MAGIC ∨
      (sb.magic = MAGIC ∧ 0 < sb.block_size ∧
        ¬(2 ^ sb.block_log ≤ sb.block_size ∧
          sb.block_size < 2 ^ (sb.block_log + 1))) ∨
      (sb.magic = MAGIC ∧ 2 ^ sb.block_log ≤ sb.block_size ∧
        sb.block_size < 2 ^ (sb.block_log + 1) ∧
        sb.xattr_id_table_start ≠ INVALID_BLK_PAT)) ∧
    (superblockNew src = .panicked ↔ sb.magic = MAGIC ∧ sb.block_size = 0) ∧
    (sb.magic = MAGIC → 2 ^ sb.block_log ≤ sb.block_size →
      sb.block_size < 2 ^ (sb.block_log + 1) →
      sb.xattr_id_table_start = INVALID_BLK_PAT →
      superblockNew src = .ok sb) := by
  have hlog : ∀ bs bl : Nat, 0 < bs →
      (Nat.log2 bs = bl ↔ 2 ^ bl ≤ bs ∧ bs < 2 ^ (bl + 1)) := by
    intro bs bl hbs
    rw [Nat.log2_eq_log_two]
    exact Nat.log_eq_iff (Or.inr ⟨by norm_num, by omega⟩)
  subst hsb
  simp only [superblockNew]
  rw [if_neg (by omega)]
  set sb := decodeSuperblock src with hsbdef
  by_cases hm : sb.magic = MAGIC
  · rw [if_neg (by simpa using hm)]
    by_cases hz : sb.block_size = 0
    · rw [if_pos hz]
      refine ⟨?_, ?_, ?_⟩
      · simp only [hz]
        constructor
        · intro h
          exact absurd h (by simp)
        · intro h
          rcases h with h | ⟨_, h, _⟩ | ⟨_, h, _⟩
          · exact absurd hm h
          · omega
          · have : 0 < 2 ^ sb.block_log := pow_pos (by norm_num) _
            omega
      · simp [hm, hz]
      · intro _ h _ _
        have : 0 < 2 ^ sb.block_log := Nat.pos_pow_of_pos _ (by norm_num)
        omega
    · rw [if_neg hz]
      have hbs : 0 < sb.block_size := Nat.pos_of_ne_zero hz
      by_cases hl : Nat.log2 sb.block_size = sb.block_log
      · rw [if_neg (by simpa using hl)]
        have hrange := (hlog _ _ hbs).mp hl
        by_cases hx : sb.xattr_id_table_start = INVALID_BLK_PAT
        · rw [if_neg (by simpa using hx)]
          refine ⟨?_, ?_, ?_⟩
          · constructor
            · intro h
              exact absurd h (by simp)
            · intro h
              rcases h with h | ⟨_, _, h⟩ | ⟨_, _, _, h⟩
              · exact absurd hm h
              · exact absurd hrange h
              · exact absurd hx h
          · constructor
            · intro h
              exact absurd h (by simp)
            · intro h
              omega
          · intro _ _ _ _
            rfl
        · rw [if_pos hx]
          refine ⟨?_, ?_, ?_⟩
          · simp only [eq_self_iff_true, true_iff]
            exact Or.inr (Or.inr ⟨hm, hrange.1, hrange.2, hx⟩)
          · constructor
            · intro h
              exact absurd h (by simp)
            · intro h
              omega
          · intro _ _ _ hx2
            exact absurd hx2 hx
      · rw [if_pos hl]
        have hrange : ¬(2 ^ sb.block_log ≤ sb.block_size ∧
            sb.block_size < 2 ^ (sb.block_log + 1)) := fun hc =>
          hl ((hlog _ _ hbs).mpr hc)
        refine ⟨?_, ?_, ?_⟩
        · simp only [eq_self_iff_true, true_iff]
          exact Or.inr (Or.inl ⟨hm, hbs, hrange⟩)
        · constructor
          · intro h
            exact absurd h (by simp)
          · intro h
            omega
        · intro _ h1 h2 _
          exact absurd ⟨h1, h2⟩ hrange
  · rw [if_pos (by simpa using hm)]
    refine ⟨?_, ?_, ?_⟩
    · simp only [eq_self_iff_true, true_iff]
      exact Or.inl hm
    · constructor
      · intro h
        exact absurd h (by simp)
      · intro h
        exact absurd h.1 hm
    · intro h
      exact absurd h hm

/-- C1 amended-claim witness: the fully valid superblock image is
accepted, by the acceptance arm of the characterization applied at
`goodSb96`. -/
theorem c1_witness : superblockNew goodSb96 = .ok (decodeSuperblock goodSb96) :=
  (c1_superblockNew_characterization goodSb96 (by decide) _ rfl).2.2
    (by decide) (by decide) (by decide) (by decide)

/-- Helper: everything a successful `read_block` call guarantees — the
stored size survived the 8192 guard, the return value is
`stored_size + 2`, the 2-byte header was readable, and the output came
either from the decompressor (compressed branch, where a supplied
`expected` equals the output length) or verbatim from the source
(uncompressed branch). -/
theorem read_block_ok_cases {src : List Nat} {decomp : Decomp} {start : Nat}
    {expected cap : Option Nat} {out : List Nat} {ret : Nat}
    (h : read_block src decomp start expected cap = .ok out ret) :
    (src.getD start 0 + 256 * src.getD (start + 1) 0) &&& 32767 ≤ METADATA_SIZE ∧
    ret = ((src.getD start 0 + 256 * src.getD (start + 1) 0) &&& 32767) + 2 ∧
    start + 2 ≤ src.length ∧
    (((src.getD start 0 + 256 * src.getD (start + 1) 0) &&& 32768 = 0 ∧
        decomp ((src.drop (start + 2)).take
          ((src.getD start 0 + 256 * src.getD (start + 1) 0) &&& 32767)) = some out ∧
        (∀ n, expected = some n → n = out.length)) ∨
      ((src.getD start 0 + 256 * src.getD (start + 1) 0) &&& 32768 ≠ 0 ∧
        out = (src.drop (start + 2)).take
          ((src.getD start 0 + 256 * src.getD (start + 1) 0) &&& 32767))) := by
  unfold read_block at h
  by_cases h1 : src.length < start + 2
  · rw [if_pos h1] at h
    exact absurd h (by simp)
  · rw [if_neg h1] at h
    dsimp only at h
    by_cases h2 : METADATA_SIZE <
        (src.getD start 0 + 256 * src.getD (start + 1) 0) &&& 32767
    · rw [if_pos h2] at h
      exact absurd h (by simp)
    · rw [if_neg h2] at h
      by_cases h3 : (src.getD start 0 + 256 * src.getD (start + 1) 0) &&& 32768 = 0
      · rw [if_pos h3] at h
        cases hd : decomp ((src.drop (start + 2)).take
            ((src.getD start 0 + 256 * src.getD (start + 1) 0) &&& 32767)) with
        | none =>
          rw [hd] at h
          exact absurd h (by simp)
        | some o =>
          rw [hd] at h
          dsimp only at h
          by_cases h4 : o.length ≤ cap.getD o.length
          · rw [if_pos h4] at h
            cases expected with
            | none =>
              injection h with ha hb
              subst ha
              exact ⟨by omega, by omega, by omega,
                Or.inl ⟨h3, rfl, by intro n hn; exact absurd hn (by simp)⟩⟩
            | some e =>
              dsimp only at h
              by_cases h5 : e ≠ o.length
              · rw [if_pos h5] at h
                exact absurd h (by simp)
              · rw [if_neg h5] at h
                injection h with ha hb
                subst ha
                refine ⟨by omega, by omega, by omega, Or.inl ⟨h3, rfl, ?_⟩⟩
                intro n hn
                injection hn with hn
                omega
          · rw [if_neg h4] at h
            exact absurd h (by simp)
      · rw [if_neg h3] at h
        by_cases h4 : ((src.drop (start + 2)).take
            ((src.getD start 0 + 256 * src.getD (start + 1) 0) &&& 32767)).length ≤
            cap.getD ((src.drop (start + 2)).take
              ((src.getD start 0 + 256 * src.getD (start + 1) 0) &&& 32767)).length
        · rw [if_pos h4] at h
          injection h with ha hb
          exact ⟨by omega, by omega, by omega, Or.inr ⟨h3, ha.symm⟩⟩
        · rw [if_neg h4] at h
          exact absurd h (by simp)

/-! ## C2: the `expected` guard of `read_block` -/

/-- C2 counterexample: an uncompressed metadata block (header `0x8005`,
5 payload bytes) read with `expected = Some(3)` succeeds and produces 5
bytes — the uncompressed branch never consults `expected`, so a
produced-byte count differing from the expectation does not fail the
operation. -/
theorem c2_counterexample :
    read_block [5, 128, 1, 2, 3, 4, 5] noDecomp 0 (some 3) none =
      .ok [1, 2, 3, 4, 5] 7 ∧ ([1, 2, 3, 4, 5] : List Nat).length ≠ 3 := by
  constructor
  · rfl
  · decide

/-- C2 (amended): the `expected` guard exists only in the compressed
branch, where it is a panic raised after the decompressed bytes were
already written, not a returned `BadMetadataBlock` error: when the
frame header marks the block compressed and the decompressor yields
`out`, a call with `expected = Some(n)` panics if `out.len() ≠ n` and
returns the bytes otherwise.  The uncompressed branch ignores
`expected` entirely (see the counterexample). -/
theorem c2_read_block_expected_guard (src : List Nat) (decomp : Decomp)
    (start n : Nat) (out : List Nat)
    (hlen : start + 2 ≤ src.length)
    (hcomp : (src.getD start 0 + 256 * src.getD (start + 1) 0) &&& 32768 = 0)
    (hsize : (src.getD start 0 + 256 * src.getD (start + 1) 0) &&& 32767 ≤
      METADATA_SIZE)
    (hdec : decomp ((src.drop (start + 2)).take
        ((src.getD start 0 + 256 * src.getD (start + 1) 0) &&& 32767)) =
      some out) :
    (out.length ≠ n → read_block src decomp start (some n) none = .panicked out) ∧
    (out.length = n → read_block src decomp start (some n) none =
      .ok out (((src.getD start 0 + 256 * src.getD (start + 1) 0) &&& 32767) + 2)) := by
  have hout : read_block src decomp start (some n) none =
      if n ≠ out.length then .panicked out
      else .ok out (((src.getD start 0 + 256 * src.getD (start + 1) 0) &&& 32767) + 2) := by
    unfold read_block
    rw [if_neg (by omega)]
    simp only [Option.getD_none]
    rw [if_neg (by omega), if_pos hcomp, hdec]
    dsimp only
    rw [if_pos le_rfl]
  constructor
  · intro hne
    rw [hout, if_pos (by omega)]
  · intro heq
    rw [hout, if_neg (by omega)]

/-- C2 amended-claim witness: a compressed block whose decompressor
yields nothing, read with `expected = Some(3)`, panics. -/
theorem c2_witness : read_block [0, 0] emptyDecomp 0 (some 3) none =
    .panicked [] :=
  (c2_read_block_expected_guard [0, 0] emptyDecomp 0 3 [] (by decide)
    (by decide) (by decide) rfl).1 (by decide)

/-! ## C5: the 8192-byte output bound -/

/-- C5 counterexample: in the compressed branch nothing bounds what the
decompressor writes — with no `expected`, a frame of stored size 0
whose decompressor emits 8193 bytes succeeds and the destination
receives more than `METADATA_SIZE` bytes. -/
theorem c5_counterexample :
    read_block [0, 0] bigDecomp 0 none none = .ok (List.replicate 8193 0) 2 ∧
      METADATA_SIZE < (List.replicate 8193 0).length := by
  constructor
  · unfold read_block
    rw [if_neg (by decide)]
    dsimp only [bigDecomp, Option.getD_none]
    rw [if_neg (by decide), if_pos (by decide), if_pos le_rfl]
    have h2 : ([0, 0].getD 0 0 + 256 * [0, 0].getD (0 + 1) 0 &&& 32767) + 2 = 2 := by
      decide
    rw [h2]
  · rw [List.length_replicate]
    decide

/-- C5 (amended): a successful `read_block` is bounded by 8192 bytes in
the uncompressed branch (the stored size survives the header panic
guard), and in either branch whenever the caller supplied an
`expected` value of at most 8192 — but the compressed branch in itself
places no bound on the bytes the decompressor produces (see the
counterexample). -/
theorem c5_read_block_bound (src : List Nat) (decomp : Decomp) (start : Nat)
    (expected cap : Option Nat) (out : List Nat) (ret : Nat)
    (h : read_block src decomp start expected cap = .ok out ret) :
    (∀ n, expected = some n → n ≤ METADATA_SIZE → out.length ≤ METADATA_SIZE) ∧
    ((src.getD start 0 + 256 * src.getD (start + 1) 0) &&& 32768 ≠ 0 →
      out.length ≤ METADATA_SIZE) := by
  obtain ⟨hsize, hret, hlen, hcase⟩ := read_block_ok_cases h
  rcases hcase with ⟨hcomp, hdec, hexp⟩ | ⟨hcomp, hraw⟩
  · constructor
    · intro n hn hn8
      have := hexp n hn
      omega
    · intro hc
      exact absurd hcomp hc
  · have hb : out.length ≤
        (src.getD start 0 + 256 * src.getD (start + 1) 0) &&& 32767 := by
      rw [hraw]
      simp
    exact ⟨fun _ _ _ => by omega, fun _ => by omega⟩

/-- C5 amended-claim witness: an uncompressed one-byte block's output
is within the 8192-byte bound. -/
theorem c5_witness : ([9] : List Nat).length ≤ METADATA_SIZE :=
  (c5_read_block_bound [1, 128, 9] noDecomp 0 none none [9] 3 (by rfl)).2
    (by decide)

/-! ## Helper lemmas on the inode parsers -/

/-- Helper: dispatch of tag 2 (`File`). -/
theorem parseInode_two (sb : Superblock) (r : List Nat) :
    parseInode sb (2 :: 0 :: r) = parseFile sb r := by
  simp only [parseInode, readExactStream, List.length_cons]
  rw [if_neg (by omega)]
  norm_num [leBytes]

/-- Helper: dispatch of tag 9 (`LFile`). -/
theorem parseInode_nine (sb : Superblock) (r : List Nat) :
    parseInode sb (9 :: 0 :: r) = parseLFile sb r := by
  simp only [parseInode, readExactStream, List.length_cons]
  rw [if_neg (by omega)]
  norm_num [leBytes]

/-- Helper: dispatch of tag 3 (`Symlink`). -/
theorem parseInode_three (sb : Superblock) (r : List Nat) :
    parseInode sb (3 :: 0 :: r) = parseSymlink false r := by
  simp only [parseInode, readExactStream, List.length_cons]
  rw [if_neg (by omega)]
  norm_num [leBytes]

/-- Helper: the `File` decoder with its fixed 30-byte body split off. -/
theorem parseFile_eval (sb : Superblock) (body tail : List Nat)
    (hb : body.length = 30) :
    parseFile sb (body ++ tail) =
      (if field (2 :: 0 :: body) 20 4 ≠ INVALID_FRAG ∧
          sb.fragments < field (2 :: 0 :: body) 20 4 then .err .corrupted
       else
         if 0 < fragment_blocks (field (2 :: 0 :: body) 20 4)
             (field (2 :: 0 :: body) 28 4) sb.block_size sb.block_log then
           match chunksLE32 (tail.take (fragment_blocks (field (2 :: 0 :: body) 20 4)
               (field (2 :: 0 :: body) 28 4) sb.block_size sb.block_log * 4)) with
           | none => .panicked
           | some bl => .ok (.regular (2 :: 0 :: body) (some bl))
               (tail.drop (fragment_blocks (field (2 :: 0 :: body) 20 4)
                 (field (2 :: 0 :: body) 28 4) sb.block_size sb.block_log * 4))
         else .ok (.regular (2 :: 0 :: body) none) tail) := by
  simp only [parseFile, readExactStream]
  rw [if_neg (by simp [hb])]
  dsimp only
  rw [show (30 : Nat) = body.length from hb.symm, List.take_left, List.drop_left]

/-- Helper: the `LFile` decoder with its fixed 54-byte body split off. -/
theorem parseLFile_eval (sb : Superblock) (body tail : List Nat)
    (hb : body.length = 54) :
    parseLFile sb (body ++ tail) =
      (match chunksLE32 (tail.take (fragment_blocks (field (9 :: 0 :: body) 44 4)
          (field (9 :: 0 :: body) 24 8) sb.block_size sb.block_log * 4)) with
       | none => .panicked
       | some bl => .ok (.lregular (9 :: 0 :: body) (some bl))
           (tail.drop (fragment_blocks (field (9 :: 0 :: body) 44 4)
             (field (9 :: 0 :: body) 24 8) sb.block_size sb.block_log * 4))) := by
  simp only [parseLFile, readExactStream]
  rw [if_neg (by simp [hb])]
  dsimp only
  rw [show (54 : Nat) = body.length from hb.symm, List.take_left, List.drop_left]

/-- Helper: dispatch of tag 10 (`LSymlink`). -/
theorem parseInode_ten (sb : Superblock) (r : List Nat) :
    parseInode sb (10 :: 0 :: r) = parseSymlink true r := by
  simp only [parseInode, readExactStream, List.length_cons]
  rw [if_neg (by omega)]
  norm_num [leBytes]

/-- Helper: the extended `LSymlink` decoder with its fixed 22-byte body
split off — after absorbing up to `symlink_size` bytes of link text, it
performs a `read_exact` of the 4-byte xattr id on what remains. -/
theorem parseSymlink_ext_eval (body tail : List Nat) (hb : body.length = 22) :
    parseSymlink true (body ++ tail) =
      (match readExactStream (tail.drop (field (10 :: 0 :: body) 20 4)) 4 with
       | none => .err .eof
       | some (xb, rest3) => .ok (.lsymlink (10 :: 0 :: body)
           (tail.take (field (10 :: 0 :: body) 20 4)) (leBytes xb)) rest3) := by
  simp only [parseSymlink]
  rw [show readExactStream (body ++ tail) 22 = some (body, tail) by
    simp only [readExactStream]
    rw [if_neg (by simp [hb])]
    rw [show (22 : Nat) = body.length from hb.symm, List.take_left,
      List.drop_left]]
  dsimp only
  norm_num

/-- Helper: the plain `Symlink` decoder with its fixed 22-byte body
split off. -/
theorem parseSymlink_eval (body tail : List Nat) (hb : body.length = 22) :
    parseSymlink false (body ++ tail) =
      .ok (.symlink (3 :: 0 :: body) (tail.take (field (3 :: 0 :: body) 20 4)))
        (tail.drop (field (3 :: 0 :: body) 20 4)) := by
  simp only [parseSymlink, readExactStream]
  rw [if_neg (by simp [hb])]
  dsimp only
  rw [show (22 : Nat) = body.length from hb.symm, List.take_left, List.drop_left]
  norm_num

/-- Helper: `chunksLE32` succeeds exactly on byte lists of length a
multiple of 4, producing one entry per 4 bytes. -/
theorem chunksLE32_total : ∀ l : List Nat, l.length % 4 = 0 →
    ∃ r, chunksLE32 l = some r ∧ r.length = l.length / 4 := by
  have key : ∀ n (l : List Nat), l.length ≤ n → l.length % 4 = 0 →
      ∃ r, chunksLE32 l = some r ∧ r.length = l.length / 4 := by
    intro n
    induction n with
    | zero =>
      intro l hl _
      rcases l with _ | ⟨a, t⟩
      · exact ⟨[], rfl, rfl⟩
      · simp at hl
    | succ n ih =>
      intro l hl h4
      rcases l with _ | ⟨a, _ | ⟨b, _ | ⟨c, _ | ⟨d, t⟩⟩⟩⟩
      · exact ⟨[], rfl, rfl⟩
      · simp at h4
      · simp at h4
      · simp at h4
      · simp only [List.length_cons] at hl h4
        obtain ⟨r, hr, hlen⟩ := ih t (by omega) (by omega)
        refine ⟨leBytes [a, b, c, d] :: r, ?_, ?_⟩
        · simp [chunksLE32, hr]
        · simp only [List.length_cons, hlen]
          omega
  intro l
  exact key l.length l le_rfl

/-- Helper: `fragment_blocks` computes the ceiling-division rule when
the fragment index is the sentinel (given `block_size = 2^block_log`
and no u64 overflow in `file_size + block_size - 1`), and the
shift-right rule otherwise. -/
theorem fragment_blocks_eq (f fsz bs bl : Nat) (hbs : bs = 2 ^ bl)
    (hov : fsz + bs ≤ 2 ^ 64) :
    fragment_blocks f fsz bs bl =
      if f = INVALID_FRAG then fsz ⌈/⌉ bs else fsz >>> bl := by
  unfold fragment_blocks
  split
  · rename_i hf
    have h1 : 0 < bs := by
      rw [hbs]
      exact pow_pos (by norm_num) _
    have h2 : fsz + bs + 2 ^ 64 - 1 = 2 ^ 64 + (fsz + bs - 1) := by omega
    have h3 : (2 ^ 64 + (fsz + bs - 1)) % 2 ^ 64 = fsz + bs - 1 := by
      rw [Nat.add_mod_left]
      exact Nat.mod_eq_of_lt (by omega)
    rw [h2, h3, Nat.shiftRight_eq_div_pow, Nat.ceilDiv_eq_add_pred_div, hbs]
  · rfl

/-! ## C8: the fragment-index guard -/

/-- C8 counterexample: an `LFile` inode whose `fragment` field is 1
against a superblock with `fragments = 0` decodes successfully — the
`LFile` decoder has no fragment-index guard, so the claimed
`CorruptedFragmentIndex` rejection does not happen for `LFile`. -/
theorem c8_counterexample :
    parseInode sb0 (9 :: 0 :: lfileBody1) =
      .ok (.lregular (9 :: 0 :: lfileBody1) (some [])) [] ∧
      field (9 :: 0 :: lfileBody1) 44 4 ≠ INVALID_FRAG ∧
      sb0.fragments < field (9 :: 0 :: lfileBody1) 44 4 := by
  refine ⟨by decide, by decide, by decide⟩

/-- C8 (amended): the guard exists only in the `File` decoder, where —
once the fixed 30-byte body is readable — the decode fails with the
`"corrupted filesystem"` error exactly when the fragment field is not
the sentinel and exceeds the superblock's fragment count; the `LFile`
decoder never returns that error. -/
theorem c8_fragment_guard (sb : Superblock) (body tail lbody ltail : List Nat)
    (hb : body.length = 30) (hlb : lbody.length = 54) :
    (parseInode sb (2 :: 0 :: (body ++ tail)) = .err .corrupted ↔
      (field (2 :: 0 :: body) 20 4 ≠ INVALID_FRAG ∧
        sb.fragments < field (2 :: 0 :: body) 20 4)) ∧
    parseInode sb (9 :: 0 :: (lbody ++ ltail)) ≠ .err .corrupted := by
  constructor
  · rw [parseInode_two, parseFile_eval sb body tail hb]
    by_cases hg : field (2 :: 0 :: body) 20 4 ≠ INVALID_FRAG ∧
        sb.fragments < field (2 :: 0 :: body) 20 4
    · rw [if_pos hg]
      simp [hg]
    · rw [if_neg hg]
      constructor
      · intro hcontra
        split at hcontra
        · split at hcontra <;> exact absurd hcontra (by simp)
        · exact absurd hcontra (by simp)
      · intro hcon
        exact absurd hcon hg
  · rw [parseInode_nine, parseLFile_eval sb lbody ltail hlb]
    split <;> simp

/-- C8 amended-claim witness: a `File` inode with fragment 1 against a
zero-fragment superblock is rejected with the corrupted-filesystem
error. -/
theorem c8_witness :
    parseInode sb0 (2 :: 0 :: (fileBodyFrag1 ++ [])) = .err .corrupted :=
  (c8_fragment_guard sb0 fileBodyFrag1 [] lfileBody1 [] (by decide)
    (by decide)).1.mpr ⟨by decide, by decide⟩

/-! ## C9: inode-tag dispatch -/

/-- C9 counterexample: a tag of 15 makes `read_inode_header` hit the
`InodeType::Unknown` arm, which is `unimplemented!()` — a panic, not a
returned `UnknownInodeType` error. -/
theorem c9_counterexample :
    parseInode sb0 [15, 0] = .panicked ∧
      ∀ e : PErr, parseInode sb0 [15, 0] ≠ .err e := by
  refine ⟨by decide, ?_⟩
  intro e
  cases e <;> decide

/-- C9 (amended): every tag in `1..=14` decodes a well-formed
(all-zero) fixed-size record of its variant without error, against any
superblock; every 16-bit tag outside `1..=14` makes the parser panic
(`unimplemented!()`) regardless of what follows the tag — it never
returns a typed error. -/
theorem c9_inode_tag_dispatch (sb : Superblock) (tag : Nat) (h16 : tag < 2 ^ 16) :
    (1 ≤ tag → tag ≤ 14 →
      ∃ h, parseInode sb
        (tag % 256 :: tag / 256 :: List.replicate (zeroBody tag) 0) = .ok h []) ∧
    (¬(1 ≤ tag ∧ tag ≤ 14) → ∀ rest,
      parseInode sb (tag % 256 :: tag / 256 :: rest) = .panicked) := by
  constructor
  · intro h1 h14
    interval_cases tag <;>
      exact ⟨_, by
        simp [parseInode, readExactStream, leBytes, parseFixed,
          parseFile, parseLFile, parseSymlink, parseLDirectory, parseLDirIndexes,
          fragment_blocks, field, chunksLE32, zeroBody, INVALID_FRAG] <;> rfl⟩
  · intro hn rest
    have e1 : tag % 256 + 256 * (tag / 256) = tag := Nat.mod_add_div tag 256
    simp only [parseInode, readExactStream]
    rw [if_neg (by simp)]
    dsimp only
    simp only [leBytes, List.foldr]
    rw [show tag % 256 + 256 * (tag / 256 + 256 * 0) = tag by omega]
    iterate 10 rw [if_neg (by omega)]

/-- C9 amended-claim witness: tag 1 with an all-zero 30-byte body
decodes without error. -/
theorem c9_witness :
    ∃ h, parseInode sb0
      (1 % 256 :: 1 / 256 :: List.replicate (zeroBody 1) 0) = .ok h [] :=
  (c9_inode_tag_dispatch sb0 1 (by decide)).1 (by decide) (by decide)

/-! ## C10: truncated variable trailers -/

/-- C10 counterexample: a `File` inode declaring one block-list entry
but followed by only 2 bytes makes the parser panic
(`clone_from_slice` on the short trailing chunk) — it does not return
`Ok` with a shorter trailer. -/
theorem c10_counterexample :
    parseInode sbV (2 :: 0 :: (fileBody1 ++ [1, 2])) = .panicked ∧
      fragment_blocks (field (2 :: 0 :: fileBody1) 20 4)
        (field (2 :: 0 :: fileBody1) 28 4) sbV.block_size sbV.block_log = 1 ∧
      ([1, 2] : List Nat).length < 4 * 1 := by
  refine ⟨by decide, by decide, by decide⟩

/-- C10 (amended): when the stream ends inside a declared variable
trailer, the outcome depends on the variant and the truncation amount.
A `File` or `LFile` block list truncated to a multiple of 4 bytes
parses `Ok` with a correspondingly shorter list (the counterexample
shows a non-multiple of 4 panics instead), and a plain `Symlink` whose
link text is cut short parses `Ok` with the shorter text; in these
cases the truncation is silent at the public interface. An `LSymlink`
cut short within its link text instead fails on the `read_exact` of
its trailing xattr word, the text absorbing all remaining bytes. -/
theorem c10_truncated_trailers (sb : Superblock)
    (body tail sbody stail lbody ltail xbody xtail : List Nat)
    (hb : body.length = 30)
    (hguard : ¬(field (2 :: 0 :: body) 20 4 ≠ INVALID_FRAG ∧
      sb.fragments < field (2 :: 0 :: body) 20 4))
    (htr : tail.length < 4 * fragment_blocks (field (2 :: 0 :: body) 20 4)
      (field (2 :: 0 :: body) 28 4) sb.block_size sb.block_log)
    (hdvd : tail.length % 4 = 0)
    (hsb : sbody.length = 22)
    (hstr : stail.length < field (3 :: 0 :: sbody) 20 4)
    (hlb : lbody.length = 54)
    (hltr : ltail.length < 4 * fragment_blocks (field (9 :: 0 :: lbody) 44 4)
      (field (9 :: 0 :: lbody) 24 8) sb.block_size sb.block_log)
    (hldvd : ltail.length % 4 = 0)
    (hxb : xbody.length = 22)
    (hxtr : xtail.length < field (10 :: 0 :: xbody) 20 4) :
    (∃ bl, parseInode sb (2 :: 0 :: (body ++ tail)) =
        .ok (.regular (2 :: 0 :: body) (some bl)) [] ∧
        bl.length = tail.length / 4 ∧ tail.length / 4 <
          fragment_blocks (field (2 :: 0 :: body) 20 4)
            (field (2 :: 0 :: body) 28 4) sb.block_size sb.block_log) ∧
    parseInode sb (3 :: 0 :: (sbody ++ stail)) =
      .ok (.symlink (3 :: 0 :: sbody) stail) [] ∧
    (∃ lbl, parseInode sb (9 :: 0 :: (lbody ++ ltail)) =
        .ok (.lregular (9 :: 0 :: lbody) (some lbl)) [] ∧
        lbl.length = ltail.length / 4 ∧ ltail.length / 4 <
          fragment_blocks (field (9 :: 0 :: lbody) 44 4)
            (field (9 :: 0 :: lbody) 24 8) sb.block_size sb.block_log) ∧
    parseInode sb (10 :: 0 :: (xbody ++ xtail)) = .err .eof := by
  refine ⟨?_, ?_, ?_, ?_⟩
  · rw [parseInode_two, parseFile_eval sb body tail hb, if_neg hguard,
      if_pos (by omega)]
    have htake : tail.take (fragment_blocks (field (2 :: 0 :: body) 20 4)
        (field (2 :: 0 :: body) 28 4) sb.block_size sb.block_log * 4) = tail :=
      List.take_of_length_le (by omega)
    have hdrop : tail.drop (fragment_blocks (field (2 :: 0 :: body) 20 4)
        (field (2 :: 0 :: body) 28 4) sb.block_size sb.block_log * 4) = [] :=
      List.drop_eq_nil_of_le (by omega)
    rw [htake, hdrop]
    obtain ⟨r, hr, hlen⟩ := chunksLE32_total tail hdvd
    rw [hr]
    exact ⟨r, rfl, hlen, by omega⟩
  · rw [parseInode_three, parseSymlink_eval sbody stail hsb]
    rw [List.take_of_length_le (by omega), List.drop_eq_nil_of_le (by omega)]
  · rw [parseInode_nine, parseLFile_eval sb lbody ltail hlb]
    have htake : ltail.take (fragment_blocks (field (9 :: 0 :: lbody) 44 4)
        (field (9 :: 0 :: lbody) 24 8) sb.block_size sb.block_log * 4) = ltail :=
      List.take_of_length_le (by omega)
    have hdrop : ltail.drop (fragment_blocks (field (9 :: 0 :: lbody) 44 4)
        (field (9 :: 0 :: lbody) 24 8) sb.block_size sb.block_log * 4) = [] :=
      List.drop_eq_nil_of_le (by omega)
    rw [htake, hdrop]
    obtain ⟨r, hr, hlen⟩ := chunksLE32_total ltail hldvd
    rw [hr]
    exact ⟨r, rfl, hlen, by omega⟩
  · rw [parseInode_ten, parseSymlink_ext_eval xbody xtail hxb]
    rw [List.drop_eq_nil_of_le (by omega)]
    rfl

/-- C10 amended-claim witness: a `File` declaring one entry with an
empty remainder parses `Ok` with an empty block list, a `Symlink`
declaring 5 bytes of text followed by one byte parses `Ok` with that
single byte, an `LFile` declaring one entry with an empty remainder
parses `Ok` with an empty block list, and an `LSymlink` declaring 5
bytes of text followed by one byte fails with an EOF error on its
xattr word. -/
theorem c10_witness :
    (∃ bl, parseInode sbV (2 :: 0 :: (fileBody1 ++ [])) =
        .ok (.regular (2 :: 0 :: fileBody1) (some bl)) [] ∧
        bl.length = ([] : List Nat).length / 4 ∧ ([] : List Nat).length / 4 <
          fragment_blocks (field (2 :: 0 :: fileBody1) 20 4)
            (field (2 :: 0 :: fileBody1) 28 4) sbV.block_size sbV.block_log) ∧
    parseInode sbV (3 :: 0 :: (symBody5 ++ [7])) =
      .ok (.symlink (3 :: 0 :: symBody5) [7]) [] ∧
    (∃ lbl, parseInode sbV (9 :: 0 :: (lfileBodyBlk1 ++ [])) =
        .ok (.lregular (9 :: 0 :: lfileBodyBlk1) (some lbl)) [] ∧
        lbl.length = ([] : List Nat).length / 4 ∧ ([] : List Nat).length / 4 <
          fragment_blocks (field (9 :: 0 :: lfileBodyBlk1) 44 4)
            (field (9 :: 0 :: lfileBodyBlk1) 24 8) sbV.block_size
            sbV.block_log) ∧
    parseInode sbV (10 :: 0 :: (symBody5 ++ [7])) = .err .eof :=
  c10_truncated_trailers sbV fileBody1 [] symBody5 [7] lfileBodyBlk1 []
    symBody5 [7] (by decide) (by decide) (by decide) (by decide) (by decide)
    (by decide) (by decide) (by decide) (by decide) (by decide) (by decide)

/-! ## C3: block-list length law -/

/-- C3: for `File` and `LFile` inodes parsed against a validated
superblock (`block_size = 2^block_log`), with the fragment-index guard
passing (`File`), no u64 overflow in the ceiling computation, and a
stream long enough to hold the declared trailer, the decoder reads
exactly `ceil(file_size / block_size)` little-endian `u32` entries when
the fragment index is the sentinel `0xFFFFFFFF`, and exactly
`file_size >> block_log` entries otherwise. -/
theorem c3_block_list_length (sb : Superblock) (body tail lbody ltail : List Nat)
    (hbs : sb.block_size = 2 ^ sb.block_log)
    (hb : body.length = 30) (hlb : lbody.length = 54)
    (nF nL : Nat)
    (hnF : nF = if field (2 :: 0 :: body) 20 4 = INVALID_FRAG
      then field (2 :: 0 :: body) 28 4 ⌈/⌉ sb.block_size
      else field (2 :: 0 :: body) 28 4 >>> sb.block_log)
    (hnL : nL = if field (9 :: 0 :: lbody) 44 4 = INVALID_FRAG
      then field (9 :: 0 :: lbody) 24 8 ⌈/⌉ sb.block_size
      else field (9 :: 0 :: lbody) 24 8 >>> sb.block_log)
    (hguard : field (2 :: 0 :: body) 20 4 = INVALID_FRAG ∨
      field (2 :: 0 :: body) 20 4 ≤ sb.fragments)
    (hovF : field (2 :: 0 :: body) 28 4 + sb.block_size ≤ 2 ^ 64)
    (hovL : field (9 :: 0 :: lbody) 24 8 + sb.block_size ≤ 2 ^ 64)
    (htail : 4 * nF ≤ tail.length) (hltail : 4 * nL ≤ ltail.length) :
    (∃ obl, parseInode sb (2 :: 0 :: (body ++ tail)) =
        .ok (.regular (2 :: 0 :: body) obl) (tail.drop (4 * nF)) ∧
        obl.elim 0 List.length = nF) ∧
    (∃ bl, parseInode sb (9 :: 0 :: (lbody ++ ltail)) =
        .ok (.lregular (9 :: 0 :: lbody) (some bl)) (ltail.drop (4 * nL)) ∧
        bl.length = nL) := by
  have hfbF : fragment_blocks (field (2 :: 0 :: body) 20 4)
      (field (2 :: 0 :: body) 28 4) sb.block_size sb.block_log = nF := by
    rw [fragment_blocks_eq _ _ _ _ hbs hovF, hnF]
  have hfbL : fragment_blocks (field (9 :: 0 :: lbody) 44 4)
      (field (9 :: 0 :: lbody) 24 8) sb.block_size sb.block_log = nL := by
    rw [fragment_blocks_eq _ _ _ _ hbs hovL, hnL]
  constructor
  · rw [parseInode_two, parseFile_eval sb body tail hb]
    rw [if_neg (by
      rcases hguard with hg | hg
      · simp [hg]
      · intro hc
        omega)]
    rw [hfbF]
    by_cases hz : 0 < nF
    · rw [if_pos hz]
      have htake : (tail.take (nF * 4)).length = nF * 4 := by
        rw [List.length_take]
        omega
      obtain ⟨r, hr, hlen⟩ := chunksLE32_total (tail.take (nF * 4))
        (by rw [htake]; omega)
      rw [hr, htake] at *
      refine ⟨some r, ?_, ?_⟩
      · rw [hr]
        rw [show nF * 4 = 4 * nF by omega]
      · simp only [Option.elim]
        rw [hlen, htake]
        omega
    · rw [if_neg hz]
      have h0 : nF = 0 := by omega
      refine ⟨none, ?_, by simp; omega⟩
      rw [h0]
      simp
  · rw [parseInode_nine, parseLFile_eval sb lbody ltail hlb]
    rw [hfbL]
    have htake : (ltail.take (nL * 4)).length = nL * 4 := by
      rw [List.length_take]
      omega
    obtain ⟨r, hr, hlen⟩ := chunksLE32_total (ltail.take (nL * 4))
      (by rw [htake]; omega)
    rw [hr]
    refine ⟨r, ?_, ?_⟩
    · rw [show nL * 4 = 4 * nL by omega]
    · rw [hlen, htake]
      omega

/-- C3 witness: against the 4096-byte-block superblock, a `File` with
`file_size = 1` and a sentinel fragment index reads exactly one entry
(`ceil(1/4096)`), and an `LFile` with `fragment = 1` and `file_size = 0`
reads exactly zero entries. -/
theorem c3_witness :
    (∃ obl, parseInode sbV (2 :: 0 :: (fileBody1 ++ [1, 2, 3, 4])) =
        .ok (.regular (2 :: 0 :: fileBody1) obl) (([1, 2, 3, 4] : List Nat).drop (4 * 1)) ∧
        obl.elim 0 List.length = 1) ∧
    (∃ bl, parseInode sbV (9 :: 0 :: (lfileBody1 ++ [])) =
        .ok (.lregular (9 :: 0 :: lfileBody1) (some bl)) (([] : List Nat).drop (4 * 0)) ∧
        bl.length = 0) :=
  c3_block_list_length sbV fileBody1 [1, 2, 3, 4] lfileBody1 [] (by decide)
    (by decide) (by decide) 1 0 (by decide) (by decide) (by decide) (by decide)
    (by decide) (by decide) (by decide)

/-! ## C6: two-level table length law -/

/-- C6: evaluation of `Image::id_table` at the failing input — a
well-formed archive with one id entry whose single uncompressed
metadata block holds the 4 payload bytes `[1,2,3,4]`.  Because
`id_table` passes `&mut block` (a `Vec`, which appends) where its
sibling `export_table` passes `&mut block[..]` (a slice, which
overwrites), the accumulated payload is the `expected`-many prefilled
zeros followed by the payload: 8 bytes instead of `count*entry_size =
4`, decoding to two entries `[0, 0x04030201]` instead of one. -/
theorem c6_id_table_failing_input :
    idTable srcId noDecomp sbId = .ok [0, 0x04030201] ∧
      ([0, 0x04030201] : List Nat).length ≠ sbId.no_ids := by
  refine ⟨by decide, by decide⟩

/-! ## C4: scanner root location and ordering -/

/-- Helper: a successful `read_block` consumed at least the 2 header
bytes (`ret = stored_size + 2`). -/
theorem read_block_ret_ge_two {src : List Nat} {decomp : Decomp} {start : Nat}
    {expected cap : Option Nat} {out : List Nat} {ret : Nat}
    (h : read_block src decomp start expected cap = .ok out ret) : 2 ≤ ret := by
  unfold read_block at h
  simp only [Option.getD_none] at h
  iterate 8 (all_goals try split at h)
  all_goals first
    | (injection h with h1 h2; omega)
    | injection h

/-- Helper: when the block loop of `scan_inode_table` recorded the root
block at stream position `rb`, the stream from `rb` on is exactly what
scanning directly from the root block's file offset produces — the
decompressed suffix starting at the root block. -/
theorem scanCollect_suffix (src : List Nat) (decomp : Decomp)
    (endPos rootStart : Nat) :
    ∀ start table rb,
      scanCollect src decomp endPos rootStart start = .ok table (some rb) →
      rb ≤ table.length ∧
      scanCollect src decomp endPos rootStart rootStart =
        .ok (table.drop rb) (some 0) := by
  have main : ∀ fuel start table rb, endPos - start ≤ fuel →
      scanCollect src decomp endPos rootStart start = .ok table (some rb) →
      rb ≤ table.length ∧
      scanCollect src decomp endPos rootStart rootStart =
        .ok (table.drop rb) (some 0) := by
    intro fuel
    induction fuel with
    | zero =>
      intro start table rb hf h
      unfold scanCollect at h
      rw [dif_neg (by omega)] at h
      injection h with h1 h2
      exact absurd h2 (by simp)
    | succ fuel ih =>
      intro start table rb hf h
      by_cases hlt : start < endPos
      · unfold scanCollect at h
        rw [dif_pos hlt] at h
        cases hb : read_block src decomp start none none with
        | ioError o =>
          rw [hb] at h
          exact absurd h (by simp)
        | panicked o =>
          rw [hb] at h
          exact absurd h (by simp)
        | ok buf ret =>
          rw [hb] at h
          dsimp only at h
          have hret := read_block_ret_ge_two hb
          split at h
          · exact absurd h (by simp)
          · rename_i hcond
            cases hrec : scanCollect src decomp endPos rootStart (start + ret) with
            | ioError =>
              rw [hrec] at h
              exact absurd h (by simp)
            | panicked =>
              rw [hrec] at h
              exact absurd h (by simp)
            | ok rest rb' =>
              rw [hrec] at h
              dsimp only at h
              by_cases hroot : start = rootStart
              · rw [if_pos hroot] at h
                injection h with h1 h2
                injection h2 with h2
                subst h1
                subst hroot
                constructor
                · omega
                · rw [← h2, List.drop_zero]
                  unfold scanCollect
                  rw [dif_pos hlt, hb]
                  dsimp only
                  rw [if_neg hcond, hrec]
                  dsimp only
                  rw [if_pos rfl]
              · rw [if_neg hroot] at h
                injection h with h1 h2
                rw [Option.map_eq_some'] at h2
                obtain ⟨a, ha, hrb⟩ := h2
                obtain ⟨hle, hsuf⟩ := ih (start + ret) rest a (by omega)
                  (by rw [hrec, ha])
                subst h1
                constructor
                · simp only [List.length_append]
                  omega
                · have hd : (buf ++ rest).drop rb = rest.drop a := by
                    rw [← hrb, List.drop_add, List.drop_left]
                  rw [hd]
                  exact hsuf
      · unfold scanCollect at h
        rw [dif_neg hlt] at h
        injection h with h1 h2
        exact absurd h2 (by simp)
  intro start table rb h
  exact main (endPos - start) start table rb le_rfl h

/-- Helper: a successful inode parse implies a non-empty input. -/
theorem parseInode_nonempty {sb : Superblock} {input : List Nat}
    {h : InodeHeader} {r : List Nat} (hp : parseInode sb input = .ok h r) :
    input.isEmpty = false := by
  cases input with
  | nil => simp [parseInode, readExactStream] at hp
  | cons a t => rfl

/-- Helper: the list built by the back-to-back parse loop yields, at
index `n`, the header parsed at sequential position `n` of the
stream. -/
theorem parseAllLoop_get (sb : Superblock) :
    ∀ n (input : List Nat) l s hh r,
      parseAllLoop sb input = .ok l →
      afterN sb n input = some s →
      parseInode sb s = .ok hh r →
      l.get? n = some hh := by
  intro n
  induction n with
  | zero =>
    intro input l s hh r hloop hafter hparse
    simp only [afterN] at hafter
    injection hafter with hafter
    subst hafter
    unfold parseAllLoop at hloop
    rw [if_neg (by simp [parseInode_nonempty hparse])] at hloop
    rw [hparse] at hloop
    dsimp only at hloop
    cases hrec : parseAllLoop sb r with
    | ok l' =>
      rw [hrec] at hloop
      injection hloop with hloop
      subst hloop
      rfl
    | err e =>
      rw [hrec] at hloop
      exact absurd hloop (by simp)
    | panicked =>
      rw [hrec] at hloop
      exact absurd hloop (by simp)
  | succ n ih =>
    intro input l s hh r hloop hafter hparse
    simp only [afterN] at hafter
    cases hp : parseInode sb input with
    | ok i rest =>
      rw [hp] at hafter
      unfold parseAllLoop at hloop
      rw [if_neg (by simp [parseInode_nonempty hp])] at hloop
      rw [hp] at hloop
      dsimp only at hloop
      cases hrec : parseAllLoop sb rest with
      | ok l' =>
        rw [hrec] at hloop
        injection hloop with hloop
        subst hloop
        simpa using ih rest l' s hh r hrec hafter hparse
      | err e =>
        rw [hrec] at hloop
        exact absurd hloop (by simp)
      | panicked =>
        rw [hrec] at hloop
        exact absurd hloop (by simp)
    | err e =>
      rw [hp] at hafter
      exact absurd hafter (by simp)
    | panicked =>
      rw [hp] at hafter
      exact absurd hafter (by simp)

/-- C4: for every archive the scanner accepts (and whose root reference
fits the 48-bit block-offset format), the separately returned root
equals the inode parsed directly at position
`(inode_table_start + (root_inode >> 16), root_inode & 0xFFFF)`: the
decompressed stream restarted at that file offset is exactly the
scanner's stream suffix at the recorded root block, and the root is
parsed at byte offset `root_inode & 0xFFFF` into it.  The returned list
is the on-disk-order sequence — element `n` is the header parsed at
sequential position `n` — and the root appears at its natural position:
any sequential position that reaches the root's offset yields the root
as element `n`. -/
theorem c4_scanner_root (src : List Nat) (decomp : Decomp) (sb : Superblock)
    (root : InodeHeader) (list : List InodeHeader)
    (hscan : scan_inode_table src decomp sb = .ok root list)
    (h48 : sb.root_inode < 2 ^ 48) :
    ∃ table rb rest,
      scanCollect src decomp sb.directory_table_start
          (sb.inode_table_start + sb.root_inode >>> 16) sb.inode_table_start =
        .ok table (some rb) ∧
      scanCollect src decomp sb.directory_table_start
          (sb.inode_table_start + sb.root_inode >>> 16)
          (sb.inode_table_start + sb.root_inode >>> 16) =
        .ok (table.drop rb) (some 0) ∧
      parseInode sb ((table.drop rb).drop (sb.root_inode % 2 ^ 16)) =
        .ok root rest ∧
      (∀ n s hh r, afterN sb n table = some s → parseInode sb s = .ok hh r →
        list.get? n = some hh) ∧
      (∀ n, afterN sb n table =
          some ((table.drop rb).drop (sb.root_inode % 2 ^ 16)) →
        list.get? n = some root) := by
  have hsh : (sb.root_inode >>> 16) % 2 ^ 32 = sb.root_inode >>> 16 := by
    apply Nat.mod_eq_of_lt
    have : sb.root_inode >>> 16 = sb.root_inode / 2 ^ 16 :=
      Nat.shiftRight_eq_div_pow _ _
    rw [this]
    omega
  unfold scan_inode_table at hscan
  rw [hsh] at hscan
  dsimp only at hscan
  cases hc : scanCollect src decomp sb.directory_table_start
      (sb.inode_table_start + sb.root_inode >>> 16) sb.inode_table_start with
  | ioError =>
    rw [hc] at hscan
    exact absurd hscan (by simp)
  | panicked =>
    rw [hc] at hscan
    exact absurd hscan (by simp)
  | ok table rbOpt =>
    rw [hc] at hscan
    dsimp only at hscan
    cases rbOpt with
    | none => exact absurd hscan (by simp)
    | some rb =>
      dsimp only at hscan
      split at hscan
      · exact absurd hscan (by simp)
      · cases hr : parseInode sb (table.drop (rb + sb.root_inode % 2 ^ 16)) with
        | err e =>
          rw [hr] at hscan
          exact absurd hscan (by simp)
        | panicked =>
          rw [hr] at hscan
          exact absurd hscan (by simp)
        | ok rootP restP =>
          rw [hr] at hscan
          cases hl : parseAllLoop sb table with
          | err e =>
            rw [hl] at hscan
            exact absurd hscan (by simp)
          | panicked =>
            rw [hl] at hscan
            exact absurd hscan (by simp)
          | ok l =>
            rw [hl] at hscan
            injection hscan with hroot hlist
            subst hroot
            subst hlist
            obtain ⟨hrble, hsuf⟩ := scanCollect_suffix src decomp
              sb.directory_table_start
              (sb.inode_table_start + sb.root_inode >>> 16)
              sb.inode_table_start table rb hc
            have hdd : (table.drop rb).drop (sb.root_inode % 2 ^ 16) =
                table.drop (rb + sb.root_inode % 2 ^ 16) := List.drop_drop _ _ _
            refine ⟨table, rb, restP, rfl, hsuf, ?_, ?_, ?_⟩
            · rw [hdd]
              exact hr
            · intro n s hh r hafter hparse
              exact parseAllLoop_get sb n table l s hh r hl hafter hparse
            · intro n hafter
              rw [hdd] at hafter
              exact parseAllLoop_get sb n table l _ rootP restP hl hafter hr
/-- Helper: the scanner accepts the one-inode archive `srcScan`,
returning its directory inode as root and as the single list entry. -/
theorem scanInodeTable_srcScan :
    scan_inode_table srcScan noDecomp sbScan = .ok rootScan [rootScan] := by
  have e1 : sbScan.inode_table_start = 0 := by decide
  have e2 : sbScan.directory_table_start = 34 := by decide
  have e3 : sbScan.root_inode = 0 := by decide
  have hb1 : read_block srcScan noDecomp 0 none none =
      .ok (1 :: 0 :: List.replicate 30 0) 34 := by decide
  have hsc34 : scanCollect srcScan noDecomp 34 0 34 = .ok [] none := by
    unfold scanCollect
    rw [dif_neg (by norm_num)]
  have hsc0 : scanCollect srcScan noDecomp 34 0 0 =
      .ok (1 :: 0 :: List.replicate 30 0) (some 0) := by
    unfold scanCollect
    rw [dif_pos (by norm_num), hb1]
    dsimp only
    rw [if_neg (by norm_num), hsc34]
    dsimp only
    rw [if_pos rfl]
    simp
  have hparse : parseInode sbScan (1 :: 0 :: List.replicate 30 0) =
      .ok rootScan [] := by decide
  have hloopnil : parseAllLoop sbScan [] = .ok [] := by
    unfold parseAllLoop
    simp
  have hloop : parseAllLoop sbScan (1 :: 0 :: List.replicate 30 0) =
      .ok [rootScan] := by
    unfold parseAllLoop
    rw [if_neg (by decide), hparse]
    dsimp only
    rw [hloopnil]
  unfold scan_inode_table
  rw [e1, e2, e3]
  dsimp only
  norm_num
  rw [hsc0]
  dsimp only
  rw [if_neg (by decide)]
  rw [List.drop_zero, hparse]
  dsimp only
  rw [hloop]
/-- C4 witness: the claim theorem applied to the concrete one-inode
archive `srcScan`. -/
theorem c4_witness :
    ∃ table rb rest,
      scanCollect srcScan noDecomp sbScan.directory_table_start
          (sbScan.inode_table_start + sbScan.root_inode >>> 16)
          sbScan.inode_table_start = .ok table (some rb) ∧
      scanCollect srcScan noDecomp sbScan.directory_table_start
          (sbScan.inode_table_start + sbScan.root_inode >>> 16)
          (sbScan.inode_table_start + sbScan.root_inode >>> 16) =
        .ok (table.drop rb) (some 0) ∧
      parseInode sbScan ((table.drop rb).drop (sbScan.root_inode % 2 ^ 16)) =
        .ok rootScan rest ∧
      (∀ n s hh r, afterN sbScan n table = some s →
        parseInode sbScan s = .ok hh r → [rootScan].get? n = some hh) ∧
      (∀ n, afterN sbScan n table =
          some ((table.drop rb).drop (sbScan.root_inode % 2 ^ 16)) →
        [rootScan].get? n = some rootScan) :=
  c4_scanner_root srcScan noDecomp sbScan rootScan [rootScan]
    scanInodeTable_srcScan (by decide)

/-- Dropping a whole-blocks prefix plus `b` bytes of a flattened block list
lands `b` bytes into block `p`. -/
theorem flatten_drop_eq (os : List (List Nat)) :
    ∀ p, p < os.length → ∀ b, b ≤ (os.getD p []).length →
    (os.flatten).drop (sumLen (os.take p) + b) =
      (os.getD p []).drop b ++ (os.drop (p + 1)).flatten := by
  induction os with
  | nil =>
    intro p hp
    simp at hp
  | cons o t ih =>
    intro p hp b hb
    cases p with
    | zero =>
      simp only [List.take_zero, sumLen, List.map_nil, List.sum_nil,
        Nat.zero_add, List.flatten_cons, List.getD_cons_zero] at hb ⊢
      rw [List.drop_append_of_le_length hb]
      simp
    | succ p =>
      simp only [List.length_cons] at hp
      simp only [List.getD_cons_succ] at hb ⊢
      simp only [List.take_succ_cons, sumLen, List.map_cons, List.sum_cons,
        List.flatten_cons, List.drop_succ_cons]
      rw [Nat.add_assoc, List.drop_append_eq_append_drop]
      rw [List.drop_eq_nil_of_le (by omega)]
      simp only [List.nil_append]
      rw [show o.length + ((List.map List.length (List.take p t)).sum + b) -
          o.length = (List.map List.length (List.take p t)).sum + b by omega]
      simpa [sumLen] using ih p (by omega) b hb

/-- Total length of a block list whose entries obey the expected-length
rule: `METADATA_SIZE` for every block but the last, `R` for the last. -/
theorem sum_aux (R : Nat) (n : Nat) :
    ∀ (os : List (List Nat)) (i : Nat), 0 < os.length → i + os.length = n →
    (∀ j, j < os.length → (os.getD j []).length =
      if i + j + 1 ≠ n then METADATA_SIZE else R) →
    sumLen os = (os.length - 1) * METADATA_SIZE + R := by
  intro os
  induction os with
  | nil => intro i h0; simp at h0
  | cons o t ih =>
    intro i h0 hn hlen
    cases t with
    | nil =>
      have h1 := hlen 0 (by simp)
      simp only [List.getD_cons_zero] at h1
      rw [if_neg (by simp at hn; omega)] at h1
      simp [sumLen, h1]
    | cons o2 t2 =>
      have hhead := hlen 0 (by simp)
      simp only [List.getD_cons_zero] at hhead
      rw [if_pos (by simp at hn ⊢; omega)] at hhead
      have ht := ih (i + 1) (by simp) (by simp at hn ⊢; omega)
        (fun j hj => by
          have := hlen (j + 1) (by simpa using hj)
          simpa [Nat.add_assoc, Nat.add_comm, Nat.add_left_comm] using this)
      simp only [sumLen, List.map_cons, List.sum_cons] at ht ⊢
      rw [hhead, ht]
      simp only [List.length_cons, METADATA_SIZE]
      omega
/-- One-step unfolding of the byte total of a block-list prefix. -/
theorem sumLen_take_succ (os : List (List Nat)) (i : Nat) (h : i < os.length) :
    sumLen (os.take (i + 1)) = sumLen (os.take i) + (os.getD i []).length := by
  rw [List.take_succ]
  simp only [sumLen, List.map_append, List.sum_append]
  congr 1
  rw [List.getElem?_eq_getElem h]
  simp [List.getD, List.getElem?_eq_getElem h]

/-- A single `FragmentTableReader::read` that returns a full 16-byte
entry already satisfies the surrounding `read_exact` loop. -/
theorem ftrReadExact_of_read (src : List Nat) (decomp : Decomp)
    (s₀ : FTRState) (bytes : List Nat) (s₁ : FTRState)
    (hr : ftrRead src decomp s₀ 16 = .ok bytes s₁) (hlen : bytes.length = 16) :
    ftrReadExact src decomp s₀ 16 = .ok bytes s₁ := by
  have hnil : ftrReadExact src decomp s₁ (16 - bytes.length) = .ok [] s₁ := by
    rw [hlen]
    unfold ftrReadExact
    rw [dif_pos (by norm_num)]
  unfold ftrReadExact
  rw [dif_neg (by norm_num), hr]
  dsimp only
  rw [dif_neg (by omega), hnil]
  simp
/-- Invariant step of the streaming fragment reader: from any state
that has drained `k` whole entries, one `read_exact` of 16 bytes
returns exactly entry `k` of the concatenated payload and re-establishes
the invariant at `k + 1`. -/
theorem ftr_step (src : List Nat) (decomp : Decomp) (f n : Nat)
    (ptrs : List Nat) (outs : List (List Nat))
    (hp : ptrs.length = n) (ho : outs.length = n)
    (hblocks : ∀ i, i < n → ∃ ret,
      read_block src decomp (ptrs.getD i 0)
        (some (if i + 1 ≠ n then METADATA_SIZE
          else (f * FRAGMENT_ENTRY_SIZE) &&& (METADATA_SIZE - 1))) none =
        .ok (outs.getD i []) ret)
    (hlens : ∀ i, i < n → (outs.getD i []).length =
      if i + 1 ≠ n then METADATA_SIZE
        else (f * FRAGMENT_ENTRY_SIZE) &&& (METADATA_SIZE - 1))
    (hdiv : ∀ i, i < n → 16 ∣ (outs.getD i []).length)
    (hpos : ∀ i, i < n → 0 < (outs.getD i []).length)
    (hsum : sumLen outs = 16 * f)
    (k : Nat) (hk : k < f) (s : FTRState)
    (hInv : FtrInv ptrs outs f n k s) :
    ∃ s', ftrReadExact src decomp s 16 =
        .ok ((outs.flatten.drop (16 * k)).take 16) s' ∧
      (k + 1 < f → FtrInv ptrs outs f n (k + 1) s') := by
  obtain ⟨hidx, hfr, hshape⟩ := hInv
  obtain ⟨spos, sidx, sfrag, sbpos, sbuf⟩ := s
  dsimp only at hidx hfr hshape
  subst hidx
  subst hfr
  rcases hshape with ⟨hbuf, hbp, hple, hsumk, hinit⟩ | ⟨hp0, hple, hbuf, hbp, hdvd, hsumk⟩
  · -- shape A: empty buffer at a block boundary
    try dsimp only at hbuf hbp hsumk hinit hple
    subst hbuf
    subst hbp
    have hpn : spos < n := by
      rcases Nat.lt_or_ge spos n with h | h
      · exact h
      · exfalso
        have he : spos = n := by omega
        rw [he, ← ho, List.take_length] at hsumk
        omega
    have hz : spos = 0 := hinit hpn
    subst hz
    have hk0 : k = 0 := by
      simp [sumLen] at hsumk
      omega
    subst hk0
    have hn0 : 0 < n := hpn
    obtain ⟨ret0, hrb0⟩ := hblocks 0 hn0
    have hlen0 : 16 ≤ (outs.getD 0 []).length :=
      Nat.le_of_dvd (hpos 0 hn0) (hdiv 0 hn0)
    have hread : ftrRead src decomp ⟨0, sidx, sfrag, 0, []⟩ 16 =
        .ok ((outs.getD 0 []).take 16)
          ⟨1, sidx, sfrag, 16, outs.getD 0 []⟩ := by
      unfold ftrRead
      rw [if_neg (by simp)]
      unfold ftrRefill
      dsimp only
      rw [if_neg (by rw [hp]; omega), hp, hrb0]
      dsimp only
      simp only [List.nil_append, List.length_nil, Nat.sub_zero]
      rw [show min (outs.getD 0 []).length 16 = 16 by omega]
    have hbytes : ((outs.getD 0 []).take 16).length = 16 := by
      simp only [List.length_take]
      omega
    have hslice : (outs.flatten.drop (16 * 0)).take 16 = (outs.getD 0 []).take 16 := by
      have hfd := flatten_drop_eq outs 0 (by omega) 0 (by omega)
      simp only [List.take_zero, sumLen, List.map_nil, List.sum_nil,
        List.drop_zero, Nat.add_zero, Nat.mul_zero] at hfd ⊢
      rw [hfd]
      rw [List.take_append_of_le_length hlen0]
    refine ⟨⟨1, sidx, sfrag, 16, outs.getD 0 []⟩, ?_, ?_⟩
    · rw [hslice]
      exact ftrReadExact_of_read src decomp _ _ _ hread hbytes
    · intro hk1
      refine ⟨rfl, rfl, Or.inr ⟨by dsimp only; omega, by dsimp only; omega,
        rfl, ?_, by dsimp only; omega, ?_⟩⟩
      · dsimp only
        by_cases hn1 : n = 1
        · have hlen1 : outs.length = 1 := by omega
          have h16f : (outs.getD 0 []).length = 16 * sfrag := by
            rcases outs with _ | ⟨o, t⟩
            · simp at hlen1
            · have htn : t = [] := by
                simp only [List.length_cons] at hlen1
                exact List.eq_nil_of_length_eq_zero (by omega)
              subst htn
              simp [sumLen] at hsum
              simpa using hsum
          omega
        · have hl0 := hlens 0 hn0
          rw [if_pos (by omega)] at hl0
          rw [hl0]
          norm_num [METADATA_SIZE]
      · dsimp only
        simp [sumLen]
  · -- shape B: mid-block
    try dsimp only at hp0 hple hbuf hbp hdvd hsumk
    subst hbuf
    have hplt : spos - 1 < n := by omega
    have hdvdlen : 16 ∣ (outs.getD (spos - 1) []).length := hdiv _ hplt
    have hremdvd : 16 ∣ ((outs.getD (spos - 1) []).length - sbpos) :=
      Nat.dvd_sub' hdvdlen hdvd
    have hrem : 16 ≤ (outs.getD (spos - 1) []).length - sbpos := by omega
    have hfd := flatten_drop_eq outs (spos - 1) (by omega) sbpos (by omega)
    rw [show (spos - 1) + 1 = spos by omega] at hfd
    rw [← hsumk] at hfd
    by_cases hlt : 16 < (outs.getD (spos - 1) []).length - sbpos
    · -- more than one entry left in the buffer
      have hread : ftrRead src decomp
          ⟨spos, sidx, sfrag, sbpos, outs.getD (spos - 1) []⟩ 16 =
          .ok (((outs.getD (spos - 1) []).drop sbpos).take 16)
            ⟨spos, sidx, sfrag, sbpos + 16, outs.getD (spos - 1) []⟩ := by
        unfold ftrRead
        rw [if_pos (by dsimp only; omega)]
        dsimp only
        rw [if_pos hlt]
      have hbytes : (((outs.getD (spos - 1) []).drop sbpos).take 16).length = 16 := by
        simp only [List.length_take, List.length_drop]
        omega
      have hslice : (outs.flatten.drop (16 * k)).take 16 =
          ((outs.getD (spos - 1) []).drop sbpos).take 16 := by
        rw [hfd]
        rw [List.take_append_of_le_length (by simp only [List.length_drop]; omega)]
      refine ⟨⟨spos, sidx, sfrag, sbpos + 16, outs.getD (spos - 1) []⟩, ?_, ?_⟩
      · rw [hslice]
        exact ftrReadExact_of_read src decomp _ _ _ hread hbytes
      · intro hk1
        refine ⟨rfl, rfl, Or.inr ⟨by dsimp only; omega, by dsimp only; omega,
          rfl, by dsimp only; omega, by dsimp only; omega, by dsimp only; omega⟩⟩
    · -- exactly one entry left: drain, then refill or finish
      have hrem16 : (outs.getD (spos - 1) []).length - sbpos = 16 := by omega
      have hdlen : ((outs.getD (spos - 1) []).drop sbpos).length = 16 := by
        simp only [List.length_drop]
        omega
      have hsucc : sumLen (outs.take spos) =
          sumLen (outs.take (spos - 1)) + (outs.getD (spos - 1) []).length := by
        have := sumLen_take_succ outs (spos - 1) (by omega)
        rw [show (spos - 1) + 1 = spos by omega] at this
        exact this
      by_cases hpn : spos = n
      · have hread : ftrRead src decomp
            ⟨spos, sidx, sfrag, sbpos, outs.getD (spos - 1) []⟩ 16 =
            .ok ((outs.getD (spos - 1) []).drop sbpos)
              ⟨spos, sidx, sfrag, 0, []⟩ := by
          unfold ftrRead
          rw [if_pos (by dsimp only; omega)]
          dsimp only
          rw [if_neg (by omega)]
          unfold ftrRefill
          dsimp only
          rw [if_pos (by rw [hp]; omega)]
        have hslice : (outs.flatten.drop (16 * k)).take 16 =
            (outs.getD (spos - 1) []).drop sbpos := by
          rw [hfd]
          rw [show outs.drop spos = [] from
            List.drop_eq_nil_of_le (by omega)]
          rw [List.flatten_nil, List.append_nil]
          exact List.take_of_length_le (by omega)
        refine ⟨⟨spos, sidx, sfrag, 0, []⟩, ?_, ?_⟩
        · rw [hslice]
          exact ftrReadExact_of_read src decomp _ _ _ hread hdlen
        · intro hk1
          exfalso
          have hall : outs.take spos = outs := by
            rw [hpn, ← ho, List.take_length]
          rw [hall] at hsucc
          omega
      · have hposn : spos < n := by omega
        obtain ⟨retp, hrbp⟩ := hblocks spos hposn
        have hlenp : 0 < (outs.getD spos []).length := hpos _ hposn
        have hread : ftrRead src decomp
            ⟨spos, sidx, sfrag, sbpos, outs.getD (spos - 1) []⟩ 16 =
            .ok ((outs.getD (spos - 1) []).drop sbpos)
              ⟨spos + 1, sidx, sfrag, 0, outs.getD spos []⟩ := by
          unfold ftrRead
          rw [if_pos (by dsimp only; omega)]
          dsimp only
          rw [if_neg (by omega)]
          unfold ftrRefill
          dsimp only
          rw [if_neg (by rw [hp]; omega), hp, hrbp]
          dsimp only
          rw [List.nil_append]
          rw [show min (outs.getD spos []).length
              (16 - ((outs.getD (spos - 1) []).drop sbpos).length) = 0 by
            rw [hdlen]
            simp]
          simp
        have hslice : (outs.flatten.drop (16 * k)).take 16 =
            (outs.getD (spos - 1) []).drop sbpos := by
          rw [hfd]
          rw [List.take_append_of_le_length (by omega)]
          exact List.take_of_length_le (by omega)
        refine ⟨⟨spos + 1, sidx, sfrag, 0, outs.getD spos []⟩, ?_, ?_⟩
        · rw [hslice]
          exact ftrReadExact_of_read src decomp _ _ _ hread hdlen
        · intro hk1
          refine ⟨rfl, rfl, Or.inr ⟨by dsimp only; omega, by dsimp only; omega,
            ?_, by dsimp only; omega, by dsimp only; omega, ?_⟩⟩
          · dsimp only
            rw [show spos + 1 - 1 = spos by omega]
          · dsimp only
            rw [show spos + 1 - 1 = spos by omega]
            omega

/-- Peeling the first 16-byte chunk off an indexed chunk enumeration. -/
theorem drain_chunks (L : List Nat) (m k : Nat) :
    (List.range (m + 1)).map (fun j => (L.drop (16 * (k + j))).take 16) =
      (L.drop (16 * k)).take 16 ::
        (List.range m).map (fun j => (L.drop (16 * (k + 1 + j))).take 16) := by
  rw [List.range_succ_eq_map, List.map_cons, List.map_map]
  refine congrArg₂ List.cons (by norm_num) ?_
  refine List.map_congr_left ?_
  intro a _
  show (L.drop (16 * (k + Nat.succ a))).take 16 = _
  rw [show k + Nat.succ a = k + 1 + a by omega]

/-- The `Image::fragments` loop, started in any `k`-entries-drained
state, returns the remaining 16-byte entries of the concatenated
payload in order. -/
theorem fragsLoop_drain (src : List Nat) (decomp : Decomp) (f n : Nat)
    (ptrs : List Nat) (outs : List (List Nat))
    (hp : ptrs.length = n) (ho : outs.length = n)
    (hblocks : ∀ i, i < n → ∃ ret,
      read_block src decomp (ptrs.getD i 0)
        (some (if i + 1 ≠ n then METADATA_SIZE
          else (f * FRAGMENT_ENTRY_SIZE) &&& (METADATA_SIZE - 1))) none =
        .ok (outs.getD i []) ret)
    (hlens : ∀ i, i < n → (outs.getD i []).length =
      if i + 1 ≠ n then METADATA_SIZE
        else (f * FRAGMENT_ENTRY_SIZE) &&& (METADATA_SIZE - 1))
    (hdiv : ∀ i, i < n → 16 ∣ (outs.getD i []).length)
    (hpos : ∀ i, i < n → 0 < (outs.getD i []).length)
    (hsum : sumLen outs = 16 * f) :
    ∀ m k s, k + m = f → FtrInv ptrs outs f n k s →
      fragsLoop src decomp s m =
        .ok ((List.range m).map fun j =>
          (outs.flatten.drop (16 * (k + j))).take 16) := by
  intro m
  induction m with
  | zero =>
    intro k s _ _
    simp [fragsLoop]
  | succ j ih =>
    intro k s hkm hinv
    have hk : k < f := by omega
    obtain ⟨s', hr, hinv'⟩ :=
      ftr_step src decomp f n ptrs outs hp ho hblocks hlens hdiv hpos hsum
        k hk s hinv
    show (match ftrReadExact src decomp s FRAGMENT_ENTRY_SIZE with
      | .ioError => FragsOut.ioError
      | .panicked => FragsOut.panicked
      | .ok bytes s' =>
        match fragsLoop src decomp s' j with
        | .ok l => FragsOut.ok (bytes :: l)
        | .ioError => FragsOut.ioError
        | .panicked => FragsOut.panicked) = _
    rw [show FRAGMENT_ENTRY_SIZE = 16 from rfl, hr]
    dsimp only
    cases j with
    | zero =>
      rw [show fragsLoop src decomp s' 0 = .ok [] from rfl]
      dsimp only
      simp [List.range_succ]
    | succ i =>
      have hk1 : k + 1 < f := by omega
      rw [ih (k + 1) s' (by omega) (hinv' hk1)]
      dsimp only
      conv_rhs => rw [drain_chunks outs.flatten (i + 1) k]

/-- `List.drop` at an in-bounds index viewed as a cons. -/
theorem drop_eq_getD_cons {α : Type} (d : α) (l : List α) (i : Nat)
    (h : i < l.length) : l.drop i = l.getD i d :: l.drop (i + 1) := by
  rw [List.drop_eq_getElem_cons h]
  congr 1
  exact (List.getD_eq_getElem l d h).symm

/-- The spec's per-pointer block reads, started at pointer `i`, produce
the concatenation of the corresponding decompressed payload suffix. -/
theorem specTwoLevelBlocks_suffix (src : List Nat) (decomp : Decomp)
    (total n : Nat) (ptrs : List Nat) (outs : List (List Nat))
    (hp : ptrs.length = n) (ho : outs.length = n)
    (hblocks : ∀ i, i < n → ∃ ret,
      read_block src decomp (ptrs.getD i 0)
        (some (if i + 1 ≠ n then METADATA_SIZE
          else total &&& (METADATA_SIZE - 1))) none =
        .ok (outs.getD i []) ret) :
    ∀ m i, i + m = n →
      specTwoLevelBlocks src decomp total n (ptrs.drop i) i =
        some (outs.drop i).flatten := by
  intro m
  induction m with
  | zero =>
    intro i hi
    rw [List.drop_eq_nil_of_le (by omega), List.drop_eq_nil_of_le (by omega)]
    rfl
  | succ j ih =>
    intro i hi
    have hin : i < n := by omega
    rw [drop_eq_getD_cons 0 ptrs i (by omega),
      drop_eq_getD_cons ([] : List Nat) outs i (by omega)]
    obtain ⟨ret, hrb⟩ := hblocks i hin
    simp only [specTwoLevelBlocks]
    rw [hrb]
    dsimp only
    rw [ih (i + 1) (by omega)]
    simp [List.flatten_cons]

set_option maxHeartbeats 1000000 in
/-- C7: on any archive whose fragment-table outer index decodes and whose
metadata blocks read back with the lengths the expected rule prescribes
(the total being zero or not a multiple of 8192, so the final block is
nonempty), the streaming `FragmentTableReader` path of `Image::fragments`
returns exactly the `fragments` 16-byte records that the spec's
non-streaming two-level table procedure yields on the same archive: the
two-level length law pins the payload to `fragments * 16` bytes and both
sides slice it identically. -/
theorem c7_streaming_matches_spec (src : List Nat) (decomp : Decomp)
    (sb : Superblock) (ptrs : List Nat) (outs : List (List Nat)) (n : Nat)
    (hn : n = (sb.fragments * FRAGMENT_ENTRY_SIZE + METADATA_SIZE - 1) /
      METADATA_SIZE)
    (hidx : chunksLE64 ((src.drop sb.fragment_table_start).take (n * 8)) =
      some ptrs)
    (hp : ptrs.length = n) (ho : outs.length = n)
    (hblocks : ∀ i, i < n → ∃ ret,
      read_block src decomp (ptrs.getD i 0)
        (some (if i + 1 ≠ n then METADATA_SIZE
          else (sb.fragments * FRAGMENT_ENTRY_SIZE) &&& (METADATA_SIZE - 1)))
        none = .ok (outs.getD i []) ret)
    (hlens : ∀ i, i < n → (outs.getD i []).length =
      if i + 1 ≠ n then METADATA_SIZE
        else (sb.fragments * FRAGMENT_ENTRY_SIZE) &&& (METADATA_SIZE - 1))
    (hmod : (sb.fragments * FRAGMENT_ENTRY_SIZE) % METADATA_SIZE ≠ 0 ∨
      sb.fragments = 0) :
    imageFragments src decomp sb =
      .ok (sliceInto sb.fragments FRAGMENT_ENTRY_SIZE outs.flatten) ∧
    specTwoLevelRead src decomp sb.fragments FRAGMENT_ENTRY_SIZE
        sb.fragment_table_start =
      some (sliceInto sb.fragments FRAGMENT_ENTRY_SIZE outs.flatten) := by
  have hand : (sb.fragments * FRAGMENT_ENTRY_SIZE) &&& (METADATA_SIZE - 1) =
      (sb.fragments * FRAGMENT_ENTRY_SIZE) % METADATA_SIZE := by
    rw [show (METADATA_SIZE - 1 : Nat) = 2 ^ 13 - 1 from rfl,
      Nat.and_pow_two_sub_one_eq_mod]
    rfl
  have hsum : sumLen outs = 16 * sb.fragments := by
    by_cases hn0 : n = 0
    · have : outs = [] := by
        rw [← List.length_eq_zero, ho, hn0]
      rw [this]
      have : sb.fragments = 0 := by
        rw [hn0] at hn
        simp only [FRAGMENT_ENTRY_SIZE, METADATA_SIZE] at hn
        omega
      rw [this]
      rfl
    · have hf0 : sb.fragments ≠ 0 := by
        intro hf
        apply hn0
        rw [hf] at hn
        simp only [FRAGMENT_ENTRY_SIZE, METADATA_SIZE] at hn
        omega
      have hmod' : (sb.fragments * FRAGMENT_ENTRY_SIZE) % METADATA_SIZE ≠ 0 :=
        hmod.resolve_right hf0
      have hs := sum_aux ((sb.fragments * FRAGMENT_ENTRY_SIZE) &&&
          (METADATA_SIZE - 1)) n outs 0 (by omega) (by omega)
        (by
          intro j hj
          have := hlens j (by omega)
          simpa using this)
      rw [ho, hand] at hs
      rw [hs]
      simp only [FRAGMENT_ENTRY_SIZE, METADATA_SIZE] at hn hmod' ⊢
      omega
  have hdiv : ∀ i, i < n → 16 ∣ (outs.getD i []).length := by
    intro i hi
    rw [hlens i hi]
    by_cases hi1 : i + 1 ≠ n
    · rw [if_pos hi1]
      decide
    · rw [if_neg hi1, hand]
      simp only [FRAGMENT_ENTRY_SIZE, METADATA_SIZE]
      omega
  have hpos : ∀ i, i < n → 0 < (outs.getD i []).length := by
    intro i hi
    rw [hlens i hi]
    by_cases hi1 : i + 1 ≠ n
    · rw [if_pos hi1]
      decide
    · rw [if_neg hi1, hand]
      have hf0 : sb.fragments ≠ 0 := by
        intro hf
        rw [hf] at hn
        simp only [FRAGMENT_ENTRY_SIZE, METADATA_SIZE] at hn
        omega
      have hmod' : (sb.fragments * FRAGMENT_ENTRY_SIZE) % METADATA_SIZE ≠ 0 :=
        hmod.resolve_right hf0
      omega
  have hnew : fragmentTableReaderNew src sb =
      some ⟨0, ptrs, sb.fragments, 0, []⟩ := by
    dsimp only [fragmentTableReaderNew]
    rw [← hn, hidx]
    rfl
  have hinv : FtrInv ptrs outs sb.fragments n 0
      ⟨0, ptrs, sb.fragments, 0, []⟩ := by
    refine ⟨rfl, rfl, Or.inl ⟨rfl, rfl, by dsimp only; omega,
      by simp [sumLen], fun _ => rfl⟩⟩
  have hloop := fragsLoop_drain src decomp sb.fragments n ptrs outs hp ho
    hblocks hlens hdiv hpos hsum sb.fragments 0 ⟨0, ptrs, sb.fragments, 0, []⟩
    (by omega) hinv
  have hslice : ((List.range sb.fragments).map fun j =>
      (outs.flatten.drop (16 * (0 + j))).take 16) =
      sliceInto sb.fragments FRAGMENT_ENTRY_SIZE outs.flatten := by
    refine List.map_congr_left ?_
    intro a _
    rw [show 16 * (0 + a) = a * FRAGMENT_ENTRY_SIZE by
      simp only [FRAGMENT_ENTRY_SIZE]; omega]
    rfl
  constructor
  · dsimp only [imageFragments]
    rw [hnew]
    dsimp only
    rw [hloop, hslice]
  · dsimp only [specTwoLevelRead]
    rw [← hn, hidx]
    dsimp only
    rw [if_pos hp]
    have hblk := specTwoLevelBlocks_suffix src decomp
      (sb.fragments * FRAGMENT_ENTRY_SIZE) n ptrs outs hp ho hblocks n 0
      (by omega)
    rw [List.drop_zero, List.drop_zero] at hblk
    rw [hblk]
    dsimp only
    rw [if_pos (by
      rw [List.length_flatten]
      show sumLen outs = _
      rw [hsum]
      simp only [FRAGMENT_ENTRY_SIZE]
      omega)]

/-- Closed instance of C7 on a one-fragment archive: outer pointer 8,
one uncompressed 16-byte metadata block. -/
theorem c7_witness :
    imageFragments srcFrag noDecomp sbFrag =
      .ok [[1, 2, 3, 4, 5, 6, 7, 8, 9, 10, 11, 12, 13, 14, 15, 16]] ∧
    specTwoLevelRead srcFrag noDecomp sbFrag.fragments FRAGMENT_ENTRY_SIZE
        sbFrag.fragment_table_start =
      some [[1, 2, 3, 4, 5, 6, 7, 8, 9, 10, 11, 12, 13, 14, 15, 16]] := by
  have h := c7_streaming_matches_spec srcFrag noDecomp sbFrag [8]
    [[1, 2, 3, 4, 5, 6, 7, 8, 9, 10, 11, 12, 13, 14, 15, 16]] 1
    (by decide) (by decide) (by decide) (by decide)
    (by
      intro i hi
      have hi0 : i = 0 := by omega
      subst hi0
      exact ⟨18, by decide⟩)
    (by
      intro i hi
      have hi0 : i = 0 := by omega
      subst hi0
      decide)
    (by decide)
  have hs : sliceInto sbFrag.fragments FRAGMENT_ENTRY_SIZE
      ([[1, 2, 3, 4, 5, 6, 7, 8, 9, 10, 11, 12, 13, 14, 15, 16]] :
        List (List Nat)).flatten =
      [[1, 2, 3, 4, 5, 6, 7, 8, 9, 10, 11, 12, 13, 14, 15, 16]] := by decide
  rw [hs] at h
  exact h

end Squashfs
